import Mathlib

/-!
# Verification of the PII guardrail core (litellm-app)

Shallow embedding of the repository's PII detection-and-policy core:

* `pii_regex_detection.py` — `PIIRegexDetection`, four compiled regular
  expressions searched over the text (email / SSN / phone / credit card).
  Python `re.search` on a pattern of the shape `\b CORE \b` succeeds exactly
  when some substring of the text matches `CORE` with a word boundary on each
  side; we embed each `CORE` as an executable exact matcher on `List Char`
  and `search` as an executable existential over all substrings.
* `pii_presidio_detection.py` — `PIIPresidioDetection`, which delegates to an
  external analyzer engine.  The engine is embedded as a function-valued field
  `analyzer : List Char → Except String (List RecognizerResult)`; an `Except`
  error models a raised runtime exception inside `analyzer.analyze`.
* `pii_regex_precall.py`, `pii_regex_postcall.py`, `pii_presidio_precall.py`,
  `pii_presidio_postcall.py` — the four guardrail hooks; each hook is embedded
  as a pure function that returns, besides its Python return value
  (`Except String …`, where `.error` models a raised `ValueError`), the list
  of warning-level log observations it emits (each observation carrying the
  entity-type list it reports) and the list of unit indices on which the
  underlying detection engine was invoked (one entry per engine invocation).

Scores and thresholds (Python floats used only in `≥` comparisons) are
embedded as rationals; text is embedded as `List Char` over the ASCII
fragment the patterns speak about.
-/

/-! ## Character classes (Python `re`, ASCII fragment) -/

/-- Python `\w` (ASCII): letters, digits, underscore. -/
def isWordChar (c : Char) : Bool :=
  c.isAlpha || c.isDigit || c == '_'

/-- Python `\s` (ASCII): space, tab, newline, carriage return, form feed,
vertical tab. -/
def isSpaceChar (c : Char) : Bool :=
  c == ' ' || c == '\t' || c == '\n' || c == '\r' || c == '\x0b' || c == '\x0c'

/-- Python `\d` (ASCII). -/
def isDigitChar (c : Char) : Bool :=
  c.isDigit

/-- The email local-part class `[A-Za-z0-9._%+-]`. -/
def isLocalChar (c : Char) : Bool :=
  c.isAlpha || c.isDigit || c == '.' || c == '_' || c == '%' || c == '+' || c == '-'

/-- The email domain class `[A-Za-z0-9.-]`. -/
def isDomainChar (c : Char) : Bool :=
  c.isAlpha || c.isDigit || c == '.' || c == '-'

/-- The class `[A-Za-z]` used for the final domain label. -/
def isAlphaChar (c : Char) : Bool :=
  c.isAlpha

/-- The separator class `[-\s]` / `[\s-]` of the SSN and card patterns. -/
def isSepChar (c : Char) : Bool :=
  c == '-' || isSpaceChar c

/-- The separator class `[-.\s]` of the phone pattern. -/
def isPhoneSep (c : Char) : Bool :=
  c == '-' || c == '.' || isSpaceChar c

/-! ## Word boundaries and substrings -/

/-- Word-character status of an optional character; an absent character
(string edge) counts as non-word. -/
def wordOpt : Option Char → Bool
  | none => false
  | some c => isWordChar c

/-- Word-character status of position `i` of `t` (out of range: non-word). -/
def wordAt (t : List Char) (i : Nat) : Bool :=
  wordOpt (t.get? i)

/-- Word-character status of the position just before `i` (start: non-word). -/
def prevWordAt (t : List Char) (i : Nat) : Bool :=
  match i with
  | 0 => false
  | k + 1 => wordAt t k

/-- Python `\b` at position `i` of `t`: the characters on the two sides of the
position differ in word-character status. -/
def boundaryAt (t : List Char) (i : Nat) : Bool :=
  prevWordAt t i != wordAt t i

/-- The substring of `t` from position `i` (inclusive) to `j` (exclusive). -/
def subSlice (t : List Char) (i j : Nat) : List Char :=
  (t.drop i).take (j - i)

/-- `re.search` for a pattern of the shape `\b CORE \b` (all four patterns of
`PIIRegexDetection` have this shape, with an assertion-free `CORE`): succeeds
iff some substring of `t` bounded by word boundaries matches `CORE` exactly. -/
def reSearchB (core : List Char → Bool) (t : List Char) : Bool :=
  (List.range (t.length + 1)).any fun i =>
    (List.range (t.length + 1)).any fun j =>
      boundaryAt t i && boundaryAt t j && core (subSlice t i j)

/-- Some substring of `t` matches `core` exactly (no boundary requirement);
used to state what it means for a text to *contain* an occurrence of one of
the four structured formats. -/
def containsCoreB (core : List Char → Bool) (t : List Char) : Bool :=
  (List.range (t.length + 1)).any fun i =>
    (List.range (t.length + 1)).any fun j =>
      core (subSlice t i j)

/-! ## The four pattern cores -/

/-- Consume exactly `n` digits, returning the remainder. -/
def takeDigits : Nat → List Char → Option (List Char)
  | 0, s => some s
  | _ + 1, [] => none
  | n + 1, c :: rest => if isDigitChar c then takeDigits n rest else none

/-- `X?` for a single-character class `p`: the possible remainders after
consuming the optional character. -/
def optChar (p : Char → Bool) : List Char → List (List Char)
  | [] => [[]]
  | c :: rest => if p c then [c :: rest, rest] else [c :: rest]

/-- Core of `email_pattern`: `[A-Za-z0-9._%+-]+@[A-Za-z0-9.-]+\.[A-Za-z]{2,}`.
Position `a` is the `@` (the classes on both sides exclude `@`, so it is the
unique one); position `dp` is the final `\.`. -/
def emailCore (s : List Char) : Bool :=
  (List.range s.length).any fun a =>
    (s.get? a == some '@') && decide (0 < a) && (s.take a).all isLocalChar &&
      ((List.range s.length).any fun dp =>
        (s.get? dp == some '.') && decide (a + 1 < dp) &&
          (subSlice s (a + 1) dp).all isDomainChar &&
          (s.drop (dp + 1)).all isAlphaChar && decide (2 ≤ s.length - (dp + 1)))

/-- Core of `ssn_pattern`: `\d{3}[-\s]?\d{2}[-\s]?\d{4}|\d{9}`. -/
def ssnCore (s : List Char) : Bool :=
  (match takeDigits 3 s with
   | none => false
   | some s1 =>
     (optChar isSepChar s1).any fun s2 =>
       match takeDigits 2 s2 with
       | none => false
       | some s3 =>
         (optChar isSepChar s3).any fun s4 =>
           match takeDigits 4 s4 with
           | none => false
           | some s5 => s5.isEmpty) ||
  (s.length == 9 && s.all isDigitChar)

/-- `[-.\s]?[0-9]{3}[-.\s]?[0-9]{4}` at the end of the phone core. -/
def phoneTail (s : List Char) : Bool :=
  (optChar isPhoneSep s).any fun s1 =>
    match takeDigits 3 s1 with
    | none => false
    | some s2 =>
      (optChar isPhoneSep s2).any fun s3 =>
        match takeDigits 4 s3 with
        | none => false
        | some s4 => s4.isEmpty

/-- `\(?[0-9]{3}\)?` followed by `phoneTail`. -/
def phoneMain (s : List Char) : Bool :=
  (optChar (· == '(') s).any fun s1 =>
    match takeDigits 3 s1 with
    | none => false
    | some s2 => (optChar (· == ')') s2).any fun s3 => phoneTail s3

/-- Core of `phone_pattern`:
`(?:\+?1[-.\s]?)?\(?[0-9]{3}\)?[-.\s]?[0-9]{3}[-.\s]?[0-9]{4}` —
either the optional country-code group is absent, or `\+?1[-.\s]?` is
consumed first. -/
def phoneCore (s : List Char) : Bool :=
  phoneMain s ||
    ((optChar (· == '+') s).any fun s1 =>
      match s1 with
      | c :: rest => c == '1' && (optChar isPhoneSep rest).any phoneMain
      | [] => false)

/-- `([\s-]?[0-9]{4}){n}` followed by end of core. -/
def fourDigitGroups : Nat → List Char → Bool
  | 0, s => s.isEmpty
  | n + 1, s =>
    (optChar isSepChar s).any fun s1 =>
      match takeDigits 4 s1 with
      | none => false
      | some s2 => fourDigitGroups n s2

/-- Visa branch: `4[0-9]{3}[\s-]?[0-9]{4}[\s-]?[0-9]{4}[\s-]?[0-9]{4}(?:[0-9]{3})?`. -/
def visaCore (s : List Char) : Bool :=
  match s with
  | [] => false
  | c :: r =>
    c == '4' &&
    (match takeDigits 3 r with
     | none => false
     | some s1 =>
       (optChar isSepChar s1).any fun s2 =>
         match takeDigits 4 s2 with
         | none => false
         | some s3 =>
           (optChar isSepChar s3).any fun s4 =>
             match takeDigits 4 s4 with
             | none => false
             | some s5 =>
               (optChar isSepChar s5).any fun s6 =>
                 match takeDigits 4 s6 with
                 | none => false
                 | some s7 =>
                   s7.isEmpty ||
                     (match takeDigits 3 s7 with
                      | none => false
                      | some s8 => s8.isEmpty))

/-- MasterCard branch: `5[1-5][0-9]{2}[\s-]?[0-9]{4}[\s-]?[0-9]{4}[\s-]?[0-9]{4}`. -/
def mcCore (s : List Char) : Bool :=
  match s with
  | c5 :: c :: r =>
    c5 == '5' && (c == '1' || c == '2' || c == '3' || c == '4' || c == '5') &&
      (match takeDigits 2 r with
       | none => false
       | some s1 => fourDigitGroups 3 s1)
  | _ => false

/-- Amex branch: `3[47][0-9]{2}[\s-]?[0-9]{6}[\s-]?[0-9]{5}`. -/
def amexCore (s : List Char) : Bool :=
  match s with
  | c3 :: c :: r =>
    c3 == '3' && (c == '4' || c == '7') &&
      (match takeDigits 2 r with
       | none => false
       | some s1 =>
         (optChar isSepChar s1).any fun s2 =>
           match takeDigits 6 s2 with
           | none => false
           | some s3 =>
             (optChar isSepChar s3).any fun s4 =>
               match takeDigits 5 s4 with
               | none => false
               | some s5 => s5.isEmpty)
  | _ => false

/-- Discover branch: `6(?:011|5[0-9]{2})[\s-]?[0-9]{4}[\s-]?[0-9]{4}[\s-]?[0-9]{4}`. -/
def discoverCore (s : List Char) : Bool :=
  match s with
  | [] => false
  | c6 :: r =>
    c6 == '6' &&
      ((match r with
        | c0 :: c1 :: c2 :: r2 =>
          c0 == '0' && c1 == '1' && c2 == '1' && fourDigitGroups 3 r2
        | _ => false) ||
       (match r with
        | [] => false
        | c5 :: r2 =>
          c5 == '5' &&
            (match takeDigits 2 r2 with
             | none => false
             | some s1 => fourDigitGroups 3 s1)))

/-- Core of `credit_card_pattern`: the four-branch alternation. -/
def cardCore (s : List Char) : Bool :=
  visaCore s || mcCore s || amexCore s || discoverCore s

/-- `self.email_pattern.search(text)` truthiness. -/
def emailSearch (t : List Char) : Bool := reSearchB emailCore t

/-- `self.ssn_pattern.search(text)` truthiness. -/
def ssnSearch (t : List Char) : Bool := reSearchB ssnCore t

/-- `self.phone_pattern.search(text)` truthiness. -/
def phoneSearch (t : List Char) : Bool := reSearchB phoneCore t

/-- `self.credit_card_pattern.search(text)` truthiness. -/
def cardSearch (t : List Char) : Bool := reSearchB cardCore t

/-! ## `PIIRegexDetection` (pii_regex_detection.py) -/

/-- `PIIRegexDetection.has_pii`. -/
def PIIRegexDetection.has_pii (text : List Char) : Bool :=
  if text.isEmpty then false
  else emailSearch text || ssnSearch text || phoneSearch text || cardSearch text

/-- `PIIRegexDetection.get_detected_types`. -/
def PIIRegexDetection.get_detected_types (text : List Char) : List String :=
  if text.isEmpty then []
  else
    (if emailSearch text then ["email"] else []) ++
    (if ssnSearch text then ["ssn"] else []) ++
    (if phoneSearch text then ["phone"] else []) ++
    (if cardSearch text then ["credit_card"] else [])

/-! ## `PIIPresidioDetection` (pii_presidio_detection.py)

The external Presidio analyzer engine is embedded as a function field; a
`.error` result models a runtime exception raised inside
`self.analyzer.analyze(...)` (caught by the `except` clauses of the source).
Detection methods are given in a traced form returning also the number of
analyzer invocations they perform (0 or 1); the plain methods are the first
projections. -/

/-- Python `str.lower` over the ASCII fragment (equivalent to
`String.toLower`, stated structurally so that it evaluates by `decide`). -/
def pyLower (s : String) : String :=
  ⟨s.data.map Char.toLower⟩

/-- One raw result of `analyzer.analyze`. -/
structure RecognizerResult where
  entity_type : String
  start : Nat
  «end» : Nat
  score : ℚ
deriving DecidableEq, Repr

/-- One formatted entry of `get_detected_entities`. -/
structure DetectedEntity where
  entity_type : String
  start : Nat
  «end» : Nat
  score : ℚ
  text : List Char
deriving DecidableEq, Repr

/-- The dictionary returned by `get_analysis_summary`.  Python's
`list(set(...))` is embedded as `List.dedup` (set contents are what the
claims are about; Python's set iteration order is unspecified). -/
structure AnalysisSummary where
  has_pii : Bool
  entity_count : Nat
  entity_types : List String
  entities : List DetectedEntity
deriving DecidableEq, Repr

/-- A `PIIPresidioDetection` instance: the analyzer engine it was constructed
with, restricted to its configured entity list and language. -/
structure PIIPresidioDetection where
  analyzer : List Char → Except String (List RecognizerResult)

/-- `PIIPresidioDetection.has_pii`, traced: the Bool result and the number of
analyzer invocations.  Source: empty/whitespace-only text returns `False`
before the `try`; an analyzer exception is caught and yields `False`;
otherwise `any(result.score >= threshold for result in results)`. -/
def PIIPresidioDetection.has_piiT (d : PIIPresidioDetection) (text : List Char)
    (threshold : ℚ) : Bool × Nat :=
  if text.isEmpty || text.all isSpaceChar then (false, 0)
  else
    match d.analyzer text with
    | .error _ => (false, 1)
    | .ok results => (results.any fun r => decide (threshold ≤ r.score), 1)

/-- `PIIPresidioDetection.has_pii`. -/
def PIIPresidioDetection.has_pii (d : PIIPresidioDetection) (text : List Char)
    (threshold : ℚ) : Bool :=
  (d.has_piiT text threshold).1

/-- `PIIPresidioDetection.get_detected_entities`, traced.  Source: filters the
raw results by `result.score >= threshold` and formats each kept result,
echoing `text[result.start:result.end]` in the `"text"` field. -/
def PIIPresidioDetection.get_detected_entitiesT (d : PIIPresidioDetection)
    (text : List Char) (threshold : ℚ) : List DetectedEntity × Nat :=
  if text.isEmpty || text.all isSpaceChar then ([], 0)
  else
    match d.analyzer text with
    | .error _ => ([], 1)
    | .ok results =>
      (((results.filter fun r => decide (threshold ≤ r.score)).map fun r =>
        { entity_type := r.entity_type, start := r.start, «end» := r.«end»,
          score := r.score, text := subSlice text r.start r.«end» }), 1)

/-- `PIIPresidioDetection.get_detected_entities`. -/
def PIIPresidioDetection.get_detected_entities (d : PIIPresidioDetection)
    (text : List Char) (threshold : ℚ) : List DetectedEntity :=
  (d.get_detected_entitiesT text threshold).1

/-- `PIIPresidioDetection.get_detected_types`:
`list(set(entity["entity_type"].lower() for entity in entities))`. -/
def PIIPresidioDetection.get_detected_types (d : PIIPresidioDetection)
    (text : List Char) (threshold : ℚ) : List String :=
  ((d.get_detected_entities text threshold).map
    fun e => pyLower e.entity_type).dedup

/-- `PIIPresidioDetection.get_analysis_summary`, traced. -/
def PIIPresidioDetection.get_analysis_summaryT (d : PIIPresidioDetection)
    (text : List Char) (threshold : ℚ) : AnalysisSummary × Nat :=
  let r := d.get_detected_entitiesT text threshold
  ({ has_pii := decide (0 < r.1.length),
     entity_count := r.1.length,
     entity_types := (r.1.map fun e => e.entity_type).dedup,
     entities := r.1 }, r.2)

/-- `PIIPresidioDetection.get_analysis_summary`. -/
def PIIPresidioDetection.get_analysis_summary (d : PIIPresidioDetection)
    (text : List Char) (threshold : ℚ) : AnalysisSummary :=
  (d.get_analysis_summaryT text threshold).1

/-! ## Payload and response data model (the hooks' boundary types)

`message.get("content")` yields either a string or a non-string value
(absent / `None` / structured content); every hook treats all non-string
cases identically, so they are collapsed into one constructor.  A response
is either a `litellm.ModelResponse` carrying choices — each either a
`litellm.Choices` with an optional textual content or some other choice
kind — or some other object. -/

/-- The value of `message.get("content")` / `choice.message.content`. -/
inductive ContentVal where
  | str (s : List Char)
  | nonStr
deriving DecidableEq, Repr

/-- One entry of `data["messages"]`. -/
structure Message where
  content : ContentVal
deriving DecidableEq, Repr

/-- The request payload `data`: its `"messages"` key (absent ↦ `none`,
`data.get("messages")` then yields Python `None`, which is falsy, as is an
empty list). -/
structure RequestData where
  messages? : Option (List Message)
deriving DecidableEq, Repr

/-- One entry of `response.choices`. -/
inductive Choice where
  | choices (content : ContentVal)
  | nonChoices
deriving DecidableEq, Repr

/-- The post-call `response` argument. -/
inductive Response where
  | modelResponse (choices : List Choice)
  | notModelResponse
deriving DecidableEq, Repr

/-! ## Regex guardrail hooks (pii_regex_precall.py, pii_regex_postcall.py)

Both hooks raise `ValueError(f"...blocked PII detected: {', '.join(types)}")`
on the first message/choice whose string content has PII; neither consults
any `block_on_detection` option (the regex guardrails store their kwargs in
`optional_params` and never read them).  Each embedded scan returns the
Python outcome (`.error msg` models the raised `ValueError`) together with
the list of unit indices on which `self.detector` was invoked, one entry per
invocation (`has_pii` once per scanned string unit, `get_detected_types`
once more on the violating unit). -/

/-- The `ValueError` message of the regex hooks:
`f"{phase} guardrail blocked PII detected: {', '.join(detected_types)}"`. -/
def regexBlockMsg (phase : String) (types : List String) : String :=
  phase ++ " guardrail blocked PII detected: " ++ String.intercalate ", " types

/-- A `PIIRegexPreCallGuardrail` instance: the kwargs it was constructed with
are stored in `optional_params` and never read by the hook (modelled by the
one option the spec discusses). -/
structure PIIRegexPreCallGuardrail where
  optional_params_block : Option Bool
deriving DecidableEq, Repr

/-- The message loop of `PIIRegexPreCallGuardrail.async_pre_call_hook`,
scanning from message index `i`. -/
def regexPreScan : List Message → Nat → Except String Unit × List Nat
  | [], _ => (.ok (), [])
  | m :: rest, i =>
    match m.content with
    | .nonStr => regexPreScan rest (i + 1)
    | .str c =>
      if PIIRegexDetection.has_pii c then
        (.error (regexBlockMsg "Pre-call" (PIIRegexDetection.get_detected_types c)), [i, i])
      else
        let r := regexPreScan rest (i + 1)
        (r.1, i :: r.2)

/-- `PIIRegexPreCallGuardrail.async_pre_call_hook`: returns `data` unchanged
unless a message's string content has PII, in which case it raises.  `if
_messages:` skips the loop when the key is absent or the list is empty. -/
def PIIRegexPreCallGuardrail.async_pre_call_hook (_g : PIIRegexPreCallGuardrail)
    (data : RequestData) : Except String RequestData × List Nat :=
  match data.messages? with
  | none => (.ok data, [])
  | some msgs =>
    if msgs.isEmpty then (.ok data, [])
    else
      let r := regexPreScan msgs 0
      (r.1.map fun _ => data, r.2)

/-- The choice loop of `PIIRegexPostCallGuardrail.async_post_call_success_hook`.
`choice.message.content and isinstance(..., str)` skips non-`Choices`
entries, non-string content and the falsy empty string without invoking the
detector. -/
def regexPostScan : List Choice → Nat → Except String Unit × List Nat
  | [], _ => (.ok (), [])
  | ch :: rest, i =>
    match ch with
    | .nonChoices => regexPostScan rest (i + 1)
    | .choices .nonStr => regexPostScan rest (i + 1)
    | .choices (.str c) =>
      if c.isEmpty then regexPostScan rest (i + 1)
      else if PIIRegexDetection.has_pii c then
        (.error (regexBlockMsg "Post-call" (PIIRegexDetection.get_detected_types c)), [i, i])
      else
        let r := regexPostScan rest (i + 1)
        (r.1, i :: r.2)

/-- `PIIRegexPostCallGuardrail.async_post_call_success_hook`: returns `None`
on pass (a non-`ModelResponse` is not scanned). -/
def PIIRegexPostCallGuardrail.async_post_call_success_hook
    (response : Response) : Except String Unit × List Nat :=
  match response with
  | .notModelResponse => (.ok (), [])
  | .modelResponse chs => regexPostScan chs 0

/-! ## Presidio guardrail hooks (pii_presidio_precall.py, pii_presidio_postcall.py)

Each scan returns the Python outcome, the warning-level observations emitted
(each observation is the entity-type list it reports: on a detected unit the
source logs `analysis['entity_types']` once, and once more in the
non-blocking branch), and the unit indices of analyzer invocations
(`has_pii` invokes the analyzer once on each scanned non-whitespace string
unit; `get_analysis_summary` invokes it once more on a detected unit). -/

/-- The `ValueError` message of the Presidio hooks:
`f"{phase} Presidio guardrail blocked PII detected: {detected_types} (confidence >= {self.threshold})"`. -/
def presidioBlockMsg (phase : String) (types : List String) (threshold : ℚ) : String :=
  phase ++ " Presidio guardrail blocked PII detected: " ++
    String.intercalate ", " types ++ " (confidence >= " ++ toString threshold ++ ")"

/-- A `PIIPresidioPreCallGuardrail` instance (configuration read from kwargs
at construction, plus the detector it builds). -/
structure PIIPresidioPreCallGuardrail where
  threshold : ℚ
  block_on_detection : Bool
  detector : PIIPresidioDetection

/-- The message loop of `PIIPresidioPreCallGuardrail.async_pre_call_hook`,
scanning from message index `i`. -/
def presidioPreScan (g : PIIPresidioPreCallGuardrail) :
    List Message → Nat → Except String Unit × List (List String) × List Nat
  | [], _ => (.ok (), [], [])
  | m :: rest, i =>
    match m.content with
    | .nonStr => presidioPreScan g rest (i + 1)
    | .str c =>
      let hp := g.detector.has_piiT c g.threshold
      if hp.1 then
        let an := g.detector.get_analysis_summaryT c g.threshold
        let here := List.replicate hp.2 i ++ List.replicate an.2 i
        if g.block_on_detection then
          (.error (presidioBlockMsg "Pre-call" an.1.entity_types g.threshold),
            [an.1.entity_types], here)
        else
          let r := presidioPreScan g rest (i + 1)
          (r.1, an.1.entity_types :: an.1.entity_types :: r.2.1, here ++ r.2.2)
      else
        let r := presidioPreScan g rest (i + 1)
        (r.1, r.2.1, List.replicate hp.2 i ++ r.2.2)

/-- `PIIPresidioPreCallGuardrail.async_pre_call_hook`: `if not _messages:
return data` skips the loop when the key is absent or the list is empty. -/
def PIIPresidioPreCallGuardrail.async_pre_call_hook
    (g : PIIPresidioPreCallGuardrail) (data : RequestData) :
    Except String RequestData × List (List String) × List Nat :=
  match data.messages? with
  | none => (.ok data, [], [])
  | some msgs =>
    if msgs.isEmpty then (.ok data, [], [])
    else
      let r := presidioPreScan g msgs 0
      (r.1.map fun _ => data, r.2.1, r.2.2)

/-- A `PIIPresidioPostCallGuardrail` instance. -/
structure PIIPresidioPostCallGuardrail where
  threshold : ℚ
  block_on_detection : Bool
  detector : PIIPresidioDetection

/-- The choice loop of
`PIIPresidioPostCallGuardrail.async_post_call_success_hook`: non-`Choices`
entries, non-string and falsy (empty) content are skipped via `continue`. -/
def presidioPostScan (g : PIIPresidioPostCallGuardrail) :
    List Choice → Nat → Except String Unit × List (List String) × List Nat
  | [], _ => (.ok (), [], [])
  | ch :: rest, i =>
    match ch with
    | .nonChoices => presidioPostScan g rest (i + 1)
    | .choices .nonStr => presidioPostScan g rest (i + 1)
    | .choices (.str c) =>
      if c.isEmpty then presidioPostScan g rest (i + 1)
      else
        let hp := g.detector.has_piiT c g.threshold
        if hp.1 then
          let an := g.detector.get_analysis_summaryT c g.threshold
          let here := List.replicate hp.2 i ++ List.replicate an.2 i
          if g.block_on_detection then
            (.error (presidioBlockMsg "Post-call" an.1.entity_types g.threshold),
              [an.1.entity_types], here)
          else
            let r := presidioPostScan g rest (i + 1)
            (r.1, an.1.entity_types :: an.1.entity_types :: r.2.1, here ++ r.2.2)
        else
          let r := presidioPostScan g rest (i + 1)
          (r.1, r.2.1, List.replicate hp.2 i ++ r.2.2)

/-- `PIIPresidioPostCallGuardrail.async_post_call_success_hook`: returns
`None` on pass (a non-`ModelResponse` is not scanned). -/
def PIIPresidioPostCallGuardrail.async_post_call_success_hook
    (g : PIIPresidioPostCallGuardrail) (response : Response) :
    Except String Unit × List (List String) × List Nat :=
  match response with
  | .notModelResponse => (.ok (), [], [])
  | .modelResponse chs => presidioPostScan g chs 0

/-! ## Claim C3 — invariants of `get_analysis_summary` -/

/-- The summary's fields are all computed from one entity list. -/
theorem get_analysis_summary_eq (d : PIIPresidioDetection) (text : List Char)
    (threshold : ℚ) :
    d.get_analysis_summary text threshold =
      { has_pii := decide (0 < (d.get_detected_entities text threshold).length),
        entity_count := (d.get_detected_entities text threshold).length,
        entity_types :=
          ((d.get_detected_entities text threshold).map fun e => e.entity_type).dedup,
        entities := d.get_detected_entities text threshold } := rfl

/-- C3, amended: for every analyzer, text and threshold, the summary returned
by `get_analysis_summary` satisfies `has_pii = (entities ≠ [])` and
`entity_count = entities.length`, and its `entity_types` is, as a set, the
set of `entity_type` values of the returned entities *as produced by the
analyzer* — `get_analysis_summary` does not case-normalize them (only
`get_detected_types` lower-cases). -/
theorem c3_summary_invariants (d : PIIPresidioDetection) (text : List Char)
    (threshold : ℚ) :
    ((d.get_analysis_summary text threshold).has_pii = true ↔
      (d.get_analysis_summary text threshold).entities ≠ []) ∧
    (d.get_analysis_summary text threshold).entity_count =
      (d.get_analysis_summary text threshold).entities.length ∧
    ∀ s : String,
      s ∈ (d.get_analysis_summary text threshold).entity_types ↔
        s ∈ (d.get_analysis_summary text threshold).entities.map
          fun e => e.entity_type := by
  rw [get_analysis_summary_eq]
  refine ⟨?_, rfl, ?_⟩
  · simp [List.length_pos]
  · intro s
    simp [List.mem_dedup]

/-- An analyzer (as Presidio's) whose entity-type tags are upper-case. -/
def upperCaseAnalyzer : PIIPresidioDetection :=
  ⟨fun _ => .ok [{ entity_type := "PERSON", start := 0, «end» := 4, score := 1 }]⟩

/-- C3, counterexample: with the analyzer reporting the (Presidio-style,
upper-case) tag `"PERSON"` at score 1 and threshold 0, the summary's
`entity_types` contains `"PERSON"`, while the lower-cased set of the
entities' `entity_type` values does not — so `entity_types` is *not* the
case-normalized (lower-cased) set the claim asserts. -/
theorem c3_summary_not_lowercased :
    "PERSON" ∈ (upperCaseAnalyzer.get_analysis_summary "John".data 0).entity_types ∧
    "PERSON" ∉ ((upperCaseAnalyzer.get_analysis_summary "John".data 0).entities.map
      fun e => pyLower e.entity_type) := by decide

/-! ## Claim C5 — analysis failures are caught and fail open -/

/-- C5: if the analyzer call raises (models any runtime failure inside
`self.analyzer.analyze`), `has_pii` returns `false` and
`get_detected_entities` returns `[]`; both methods are total, i.e. the
exception never propagates to the caller. -/
theorem c5_analysis_failure_fail_open (d : PIIPresidioDetection)
    (text : List Char) (threshold : ℚ) (e : String)
    (h : d.analyzer text = .error e) :
    d.has_pii text threshold = false ∧
    d.get_detected_entities text threshold = [] := by
  unfold PIIPresidioDetection.has_pii PIIPresidioDetection.has_piiT
    PIIPresidioDetection.get_detected_entities
    PIIPresidioDetection.get_detected_entitiesT
  by_cases hw : (text.isEmpty || text.all isSpaceChar) = true
  · simp [hw]
  · simp only [Bool.not_eq_true] at hw
    simp [hw, h]

/-- An analyzer whose analyze call always raises. -/
def failingAnalyzer : PIIPresidioDetection :=
  ⟨fun _ => .error "backend unreachable"⟩

/-- Witness for C5 at a concrete failing analyzer, text and threshold. -/
theorem c5_analysis_failure_fail_open_witness :
    failingAnalyzer.has_pii "John called".data 0 = false ∧
    failingAnalyzer.get_detected_entities "John called".data 0 = [] :=
  c5_analysis_failure_fail_open failingAnalyzer "John called".data 0
    "backend unreachable" rfl

/-! ## Claim C7 — threshold monotonicity of `get_detected_entities` -/

/-- C7: for a fixed analyzer and text, raising the threshold never adds
entities: the result at the higher threshold is a sublist (hence a subset)
of the result at the lower one, and its length is no larger.  The analyzer
is a fixed function of the text, so both calls see the same raw results. -/
theorem c7_threshold_monotone (d : PIIPresidioDetection) (text : List Char)
    (t1 t2 : ℚ) (h : t1 ≤ t2) :
    (d.get_detected_entities text t2).length ≤
      (d.get_detected_entities text t1).length ∧
    ∀ x ∈ d.get_detected_entities text t2,
      x ∈ d.get_detected_entities text t1 := by
  unfold PIIPresidioDetection.get_detected_entities
    PIIPresidioDetection.get_detected_entitiesT
  by_cases hw : (text.isEmpty || text.all isSpaceChar) = true
  · simp [hw]
  · simp only [Bool.not_eq_true] at hw
    cases ha : d.analyzer text with
    | error e => simp [hw, ha]
    | ok results =>
      have hsub :
          List.Sublist (results.filter fun r => decide (t2 ≤ r.score))
            (results.filter fun r => decide (t1 ≤ r.score)) := by
        refine List.monotone_filter_right results fun r hr => ?_
        simp only [decide_eq_true_eq] at hr ⊢
        exact le_trans h hr
      have hmap := hsub.map fun r : RecognizerResult =>
        ({ entity_type := r.entity_type, start := r.start, «end» := r.«end»,
           score := r.score, text := subSlice text r.start r.«end» } : DetectedEntity)
      constructor
      · simpa [hw, ha] using hmap.length_le
      · intro x hx
        simp only [hw, ha, Bool.false_eq_true, if_false] at hx ⊢
        exact hmap.subset hx

/-- An analyzer returning two results with distinct scores. -/
def twoScoreAnalyzer : PIIPresidioDetection :=
  ⟨fun _ => .ok [{ entity_type := "PERSON", start := 0, «end» := 4, score := 1 },
                 { entity_type := "LOCATION", start := 8, «end» := 14, score := 3 }]⟩

/-- Witness for C7 at concrete thresholds 2 ≤ 3 (only the score-3 entity
survives the higher threshold). -/
theorem c7_threshold_monotone_witness :
    (twoScoreAnalyzer.get_detected_entities "John in Boston".data 3).length ≤
      (twoScoreAnalyzer.get_detected_entities "John in Boston".data 2).length ∧
    ∀ x ∈ twoScoreAnalyzer.get_detected_entities "John in Boston".data 3,
      x ∈ twoScoreAnalyzer.get_detected_entities "John in Boston".data 2 :=
  c7_threshold_monotone twoScoreAnalyzer "John in Boston".data 2 3 (by decide)

/-! ## Claim C9 — `has_pii` vs `get_detected_types` for the regex detector -/

/-- C9: `has_pii` is true exactly when `get_detected_types` is non-empty, and
the detected-type list is a duplicate-free sublist of the fixed order
`["email", "ssn", "phone", "credit_card"]`. -/
theorem c9_has_pii_iff_types (text : List Char) :
    (PIIRegexDetection.has_pii text = true ↔
      PIIRegexDetection.get_detected_types text ≠ []) ∧
    List.Sublist (PIIRegexDetection.get_detected_types text)
      ["email", "ssn", "phone", "credit_card"] ∧
    (PIIRegexDetection.get_detected_types text).Nodup := by
  unfold PIIRegexDetection.has_pii PIIRegexDetection.get_detected_types
  by_cases he : text.isEmpty = true
  · simp [he]
  · simp only [he, Bool.false_eq_true, if_false]
    cases h1 : emailSearch text <;> cases h2 : ssnSearch text <;>
      cases h3 : phoneSearch text <;> cases h4 : cardSearch text <;>
      simp

/-! ## Claim C8 — empty / whitespace-only input -/

/-- A successful `takeDigits (n+1)` means its input starts with a digit. -/
theorem takeDigits_some_mem {n : Nat} {s r : List Char}
    (h : takeDigits (n + 1) s = some r) :
    ∃ c, c ∈ s ∧ isDigitChar c = true := by
  cases s with
  | nil => simp [takeDigits] at h
  | cons c rest =>
    by_cases hc : isDigitChar c = true
    · exact ⟨c, List.mem_cons_self c rest, hc⟩
    · rw [takeDigits, if_neg hc] at h
      exact absurd h (by simp)

/-- Remainders produced by `optChar` are made of characters of the input. -/
theorem optChar_subset {p : Char → Bool} {s r : List Char}
    (h : r ∈ optChar p s) : ∀ x ∈ r, x ∈ s := by
  cases s with
  | nil =>
    simp only [optChar, List.mem_singleton] at h
    subst h; simp
  | cons c rest =>
    simp only [optChar] at h
    by_cases hc : p c = true
    · rw [if_pos hc] at h
      simp only [List.mem_cons, List.not_mem_nil, or_false] at h
      rcases h with h | h
      · subst h; exact fun x hx => hx
      · subst h; exact fun x hx => List.mem_cons_of_mem c hx
    · rw [if_neg hc] at h
      simp only [List.mem_cons, List.not_mem_nil, or_false] at h
      subst h; exact fun x hx => hx

/-- A string matching the email core contains an `'@'`. -/
theorem emailCore_mem (s : List Char) (h : emailCore s = true) : '@' ∈ s := by
  unfold emailCore at h
  simp only [List.any_eq_true, List.mem_range, Bool.and_eq_true, beq_iff_eq,
    decide_eq_true_eq] at h
  obtain ⟨a, -, ⟨⟨hat, -⟩, -⟩, -⟩ := h
  exact List.get?_mem hat

/-- A string matching the SSN core contains a digit. -/
theorem ssnCore_mem (s : List Char) (h : ssnCore s = true) :
    ∃ c, c ∈ s ∧ isDigitChar c = true := by
  unfold ssnCore at h
  rw [Bool.or_eq_true] at h
  rcases h with h | h
  · cases h3 : takeDigits 3 s with
    | none => rw [h3] at h; exact absurd h (by simp)
    | some s1 => exact takeDigits_some_mem h3
  · rw [Bool.and_eq_true, beq_iff_eq] at h
    obtain ⟨hlen, hall⟩ := h
    have hne : s ≠ [] := by
      intro hnil; rw [hnil] at hlen; simp at hlen
    obtain ⟨c, hc⟩ := List.exists_mem_of_ne_nil s hne
    exact ⟨c, hc, by simpa using List.all_eq_true.1 hall c hc⟩

/-- A string matching `phoneMain` contains a digit. -/
theorem phoneMain_mem (s : List Char) (h : phoneMain s = true) :
    ∃ c, c ∈ s ∧ isDigitChar c = true := by
  unfold phoneMain at h
  rw [List.any_eq_true] at h
  obtain ⟨s1, hs1, h⟩ := h
  cases h3 : takeDigits 3 s1 with
  | none => rw [h3] at h; exact absurd h (by simp)
  | some s2 =>
    obtain ⟨c, hc, hdig⟩ := takeDigits_some_mem h3
    exact ⟨c, optChar_subset hs1 c hc, hdig⟩

/-- A string matching the phone core contains a digit. -/
theorem phoneCore_mem (s : List Char) (h : phoneCore s = true) :
    ∃ c, c ∈ s ∧ isDigitChar c = true := by
  unfold phoneCore at h
  rw [Bool.or_eq_true] at h
  rcases h with h | h
  · exact phoneMain_mem s h
  · rw [List.any_eq_true] at h
    obtain ⟨s1, hs1, h⟩ := h
    cases s1 with
    | nil => exact absurd h (by simp)
    | cons c rest =>
      simp only [Bool.and_eq_true, beq_iff_eq] at h
      obtain ⟨rfl, -⟩ := h
      exact ⟨'1', optChar_subset hs1 '1' (List.mem_cons_self '1' rest), by decide⟩

/-- A string matching the card core contains a digit (its first character is
one of `4`, `5`, `3`, `6`). -/
theorem cardCore_mem (s : List Char) (h : cardCore s = true) :
    ∃ c, c ∈ s ∧ isDigitChar c = true := by
  unfold cardCore at h
  rw [Bool.or_eq_true, Bool.or_eq_true, Bool.or_eq_true] at h
  rcases h with ((h | h) | h) | h
  · cases s with
    | nil => exact absurd h (by simp [visaCore])
    | cons c r =>
      simp only [visaCore, Bool.and_eq_true, beq_iff_eq] at h
      obtain ⟨rfl, -⟩ := h
      exact ⟨'4', List.mem_cons_self '4' r, by decide⟩
  · cases s with
    | nil => exact absurd h (by simp [mcCore])
    | cons c r =>
      cases r with
      | nil => exact absurd h (by simp [mcCore])
      | cons c2 r2 =>
        simp only [mcCore, Bool.and_eq_true, beq_iff_eq] at h
        obtain ⟨⟨rfl, -⟩, -⟩ := h
        exact ⟨'5', List.mem_cons_self '5' (c2 :: r2), by decide⟩
  · cases s with
    | nil => exact absurd h (by simp [amexCore])
    | cons c r =>
      cases r with
      | nil => exact absurd h (by simp [amexCore])
      | cons c2 r2 =>
        simp only [amexCore, Bool.and_eq_true, beq_iff_eq] at h
        obtain ⟨⟨rfl, -⟩, -⟩ := h
        exact ⟨'3', List.mem_cons_self '3' (c2 :: r2), by decide⟩
  · cases s with
    | nil => exact absurd h (by simp [discoverCore])
    | cons c r =>
      simp only [discoverCore, Bool.and_eq_true, beq_iff_eq] at h
      obtain ⟨rfl, -⟩ := h
      exact ⟨'6', List.mem_cons_self '6' r, by decide⟩

/-- Characters of a substring belong to the whole string. -/
theorem subSlice_subset (t : List Char) (i j : Nat) :
    ∀ x ∈ subSlice t i j, x ∈ t := by
  intro x hx
  unfold subSlice at hx
  exact List.drop_subset i t (List.take_subset (j - i) (t.drop i) hx)

/-- A whitespace character is neither a digit nor `'@'`. -/
theorem isSpaceChar_not_digit_at {c : Char} (h : isSpaceChar c = true) :
    isDigitChar c = false ∧ c ≠ '@' := by
  unfold isSpaceChar at h
  simp only [Bool.or_eq_true, beq_iff_eq] at h
  rcases h with ((((h | h) | h) | h) | h) | h <;> subst h <;>
    exact ⟨by decide, by decide⟩

/-- The searches of all four patterns fail on whitespace-only text: any core
match would contain a digit or an `'@'`, but every character of the text is
whitespace. -/
theorem reSearchB_eq_false_of_space (core : List Char → Bool)
    (hcore : ∀ s, core s = true → ∃ c, c ∈ s ∧ (isDigitChar c = true ∨ c = '@'))
    (t : List Char) (hsp : t.all isSpaceChar = true) :
    reSearchB core t = false := by
  rw [Bool.eq_false_iff]
  intro htrue
  unfold reSearchB at htrue
  simp only [List.any_eq_true, List.mem_range, Bool.and_eq_true] at htrue
  obtain ⟨i, -, j, -, -, hc⟩ := htrue
  obtain ⟨c, hcmem, hcd⟩ := hcore _ hc
  have hct : c ∈ t := subSlice_subset t i j c hcmem
  have hsc : isSpaceChar c = true := List.all_eq_true.1 hsp c hct
  obtain ⟨hnd, hna⟩ := isSpaceChar_not_digit_at hsc
  rcases hcd with hcd | hcd
  · rw [hnd] at hcd; exact Bool.false_ne_true hcd
  · exact hna hcd

/-- C8: for text that is empty or whitespace-only, `has_pii` of the regex
detector is false, and for every analyzer and every threshold the contextual
detector returns false while performing zero analyzer invocations (the
recognizer is not consulted).  `t.all isSpaceChar` holds for the empty text,
so both cases are covered. -/
theorem c8_whitespace_no_pii (t : List Char) (hsp : t.all isSpaceChar = true) :
    PIIRegexDetection.has_pii t = false ∧
    ∀ (d : PIIPresidioDetection) (threshold : ℚ),
      d.has_piiT t threshold = (false, 0) := by
  constructor
  · unfold PIIRegexDetection.has_pii
    by_cases he : t.isEmpty = true
    · simp [he]
    · have h1 := reSearchB_eq_false_of_space emailCore
        (fun s hs => ⟨'@', emailCore_mem s hs, Or.inr rfl⟩) t hsp
      have h2 := reSearchB_eq_false_of_space ssnCore
        (fun s hs => by obtain ⟨c, hc, hd⟩ := ssnCore_mem s hs; exact ⟨c, hc, Or.inl hd⟩) t hsp
      have h3 := reSearchB_eq_false_of_space phoneCore
        (fun s hs => by obtain ⟨c, hc, hd⟩ := phoneCore_mem s hs; exact ⟨c, hc, Or.inl hd⟩) t hsp
      have h4 := reSearchB_eq_false_of_space cardCore
        (fun s hs => by obtain ⟨c, hc, hd⟩ := cardCore_mem s hs; exact ⟨c, hc, Or.inl hd⟩) t hsp
      simp only [he, Bool.false_eq_true, if_false]
      unfold emailSearch ssnSearch phoneSearch cardSearch
      rw [h1, h2, h3, h4]
      rfl
  · intro d threshold
    unfold PIIPresidioDetection.has_piiT
    rw [if_pos (by rw [hsp, Bool.or_true])]

/-- Witness for C8 on the concrete whitespace text `" \t "`. -/
theorem c8_whitespace_no_pii_witness :
    PIIRegexDetection.has_pii " \t ".data = false ∧
    ∀ (d : PIIPresidioDetection) (threshold : ℚ),
      d.has_piiT " \t ".data threshold = (false, 0) :=
  c8_whitespace_no_pii " \t ".data (by decide)

/-! ## Claim C10 — payloads with no scannable message -/

/-- The regex pre-call scan of a list of non-string-content messages passes
without invoking the detector. -/
theorem regexPreScan_all_nonstr (msgs : List Message) (k : Nat)
    (h : ∀ m ∈ msgs, m.content = ContentVal.nonStr) :
    regexPreScan msgs k = (.ok (), []) := by
  induction msgs generalizing k with
  | nil => rfl
  | cons m rest ih =>
    have hm := h m (List.mem_cons_self m rest)
    simp only [regexPreScan, hm]
    exact ih (k + 1) fun m' hm' => h m' (List.mem_cons_of_mem m hm')

/-- The Presidio pre-call scan of a list of non-string-content messages
passes without warnings and without invoking the analyzer. -/
theorem presidioPreScan_all_nonstr (g : PIIPresidioPreCallGuardrail)
    (msgs : List Message) (k : Nat)
    (h : ∀ m ∈ msgs, m.content = ContentVal.nonStr) :
    presidioPreScan g msgs k = (.ok (), [], []) := by
  induction msgs generalizing k with
  | nil => rfl
  | cons m rest ih =>
    have hm := h m (List.mem_cons_self m rest)
    simp only [presidioPreScan, hm]
    exact ih (k + 1) fun m' hm' => h m' (List.mem_cons_of_mem m hm')

/-- C10: a pre-call payload whose `"messages"` key is absent, or maps to an
empty list, or to messages all of whose contents are non-strings, is
returned unchanged by both pre-call hooks; no violation is raised and the
detection engine is never invoked (empty invocation list; for the Presidio
hook also no warnings). -/
theorem c10_degenerate_payload (g : PIIRegexPreCallGuardrail)
    (gp : PIIPresidioPreCallGuardrail) (data : RequestData)
    (h : data.messages? = none ∨ data.messages? = some [] ∨
      ∃ msgs, data.messages? = some msgs ∧
        ∀ m ∈ msgs, m.content = ContentVal.nonStr) :
    g.async_pre_call_hook data = (.ok data, []) ∧
    gp.async_pre_call_hook data = (.ok data, [], []) := by
  unfold PIIRegexPreCallGuardrail.async_pre_call_hook
    PIIPresidioPreCallGuardrail.async_pre_call_hook
  rcases h with h | h | ⟨msgs, h, hall⟩
  · rw [h]; exact ⟨rfl, rfl⟩
  · rw [h]; exact ⟨rfl, rfl⟩
  · rw [h]
    cases msgs with
    | nil => exact ⟨rfl, rfl⟩
    | cons m rest =>
      simp only [List.isEmpty_cons, Bool.false_eq_true, if_false,
        regexPreScan_all_nonstr _ 0 hall, presidioPreScan_all_nonstr gp _ 0 hall]
      exact ⟨rfl, rfl⟩

/-- Witness for C10 on concrete degenerate payloads (messages key absent for
the regex hook's guardrail instance; a non-string content for the Presidio
one would be symmetric — the hypothesis is discharged with the concrete
payload `{"messages": [{"content": <non-string>}]}`). -/
theorem c10_degenerate_payload_witness :
    PIIRegexPreCallGuardrail.async_pre_call_hook ⟨none⟩
        ⟨some [⟨ContentVal.nonStr⟩]⟩ = (.ok ⟨some [⟨ContentVal.nonStr⟩]⟩, []) ∧
    PIIPresidioPreCallGuardrail.async_pre_call_hook
        ⟨0, true, failingAnalyzer⟩ ⟨some [⟨ContentVal.nonStr⟩]⟩ =
      (.ok ⟨some [⟨ContentVal.nonStr⟩]⟩, [], []) :=
  c10_degenerate_payload ⟨none⟩ ⟨0, true, failingAnalyzer⟩
    ⟨some [⟨ContentVal.nonStr⟩]⟩
    (Or.inr (Or.inr ⟨[⟨ContentVal.nonStr⟩], rfl, by decide⟩))

/-! ## Claim C1 — `block_on_detection = false` -/

/-- On analyzable text (non-empty, not whitespace-only), `has_pii` performs
exactly one analyzer invocation. -/
theorem has_piiT_calls (d : PIIPresidioDetection) (c : List Char) (threshold : ℚ)
    (h : (c.isEmpty || c.all isSpaceChar) = false) :
    (d.has_piiT c threshold).2 = 1 := by
  unfold PIIPresidioDetection.has_piiT
  rw [if_neg (by rw [h]; exact Bool.false_ne_true)]
  cases d.analyzer c <;> rfl

/-- The Presidio pre-call scan with blocking disabled: passes, emits a
warning carrying the detected entity types for every message whose content
has PII, and analyzes every analyzable message (it does not stop early). -/
theorem presidioPreScan_nonblocking (g : PIIPresidioPreCallGuardrail)
    (hb : g.block_on_detection = false) (msgs : List Message) (k : Nat) :
    (presidioPreScan g msgs k).1 = .ok () ∧
    (∀ i c, msgs.get? i = some ⟨ContentVal.str c⟩ →
      g.detector.has_pii c g.threshold = true →
      (g.detector.get_analysis_summary c g.threshold).entity_types ∈
        (presidioPreScan g msgs k).2.1) ∧
    (∀ i c, msgs.get? i = some ⟨ContentVal.str c⟩ →
      (c.isEmpty || c.all isSpaceChar) = false →
      (k + i) ∈ (presidioPreScan g msgs k).2.2) := by
  induction msgs generalizing k with
  | nil =>
    refine ⟨rfl, ?_, ?_⟩ <;> intro i c h <;> simp at h
  | cons m rest ih =>
    cases hm : m.content with
    | nonStr =>
      simp only [presidioPreScan, hm]
      refine ⟨(ih (k + 1)).1, ?_, ?_⟩
      · intro i c hg hp
        cases i with
        | zero =>
          rw [List.get?_cons_zero] at hg
          obtain rfl := Option.some.inj hg
          simp at hm
        | succ j =>
          rw [List.get?_cons_succ] at hg
          exact (ih (k + 1)).2.1 j c hg hp
      · intro i c hg hw
        cases i with
        | zero =>
          rw [List.get?_cons_zero] at hg
          obtain rfl := Option.some.inj hg
          simp at hm
        | succ j =>
          rw [List.get?_cons_succ] at hg
          have := (ih (k + 1)).2.2 j c hg hw
          rw [show k + (j + 1) = (k + 1) + j by omega]
          exact this
    | str c0 =>
      by_cases hpi : (g.detector.has_piiT c0 g.threshold).1 = true
      · simp only [presidioPreScan, hm, hpi, if_true, hb, Bool.false_eq_true, if_false]
        refine ⟨(ih (k + 1)).1, ?_, ?_⟩
        · intro i c hg hp
          cases i with
          | zero =>
            rw [List.get?_cons_zero] at hg
            obtain rfl := Option.some.inj hg
            rw [show c = c0 from ContentVal.str.inj hm]
            exact List.mem_cons_self _ _
          | succ j =>
            rw [List.get?_cons_succ] at hg
            exact List.mem_cons_of_mem _ (List.mem_cons_of_mem _
              ((ih (k + 1)).2.1 j c hg hp))
        · intro i c hg hw
          cases i with
          | zero =>
            rw [List.get?_cons_zero] at hg
            obtain rfl := Option.some.inj hg
            have hc : c0 = c := (ContentVal.str.inj hm).symm
            rw [Nat.add_zero]
            refine List.mem_append_left _ (List.mem_append_left _ ?_)
            rw [← hc] at hw
            rw [has_piiT_calls g.detector c0 g.threshold hw]
            exact List.mem_replicate.2 ⟨one_ne_zero, rfl⟩
          | succ j =>
            rw [List.get?_cons_succ] at hg
            have := (ih (k + 1)).2.2 j c hg hw
            rw [show k + (j + 1) = (k + 1) + j by omega]
            exact List.mem_append_right _ this
      · simp only [presidioPreScan, hm, hpi, Bool.false_eq_true, if_false]
        refine ⟨(ih (k + 1)).1, ?_, ?_⟩
        · intro i c hg hp
          cases i with
          | zero =>
            rw [List.get?_cons_zero] at hg
            obtain rfl := Option.some.inj hg
            have hc : c0 = c := (ContentVal.str.inj hm).symm
            rw [← hc] at hp
            exact absurd hp hpi
          | succ j =>
            rw [List.get?_cons_succ] at hg
            exact (ih (k + 1)).2.1 j c hg hp
        · intro i c hg hw
          cases i with
          | zero =>
            rw [List.get?_cons_zero] at hg
            obtain rfl := Option.some.inj hg
            have hc : c0 = c := (ContentVal.str.inj hm).symm
            rw [Nat.add_zero]
            refine List.mem_append_left _ ?_
            rw [← hc] at hw
            rw [has_piiT_calls g.detector c0 g.threshold hw]
            exact List.mem_replicate.2 ⟨one_ne_zero, rfl⟩
          | succ j =>
            rw [List.get?_cons_succ] at hg
            have := (ih (k + 1)).2.2 j c hg hw
            rw [show k + (j + 1) = (k + 1) + j by omega]
            exact List.mem_append_right _ this

/-- C1, amended: the behaviour holds for the *Presidio* pre-call guardrail:
with `block_on_detection = false`, the hook returns the payload unchanged
(never raises), emits a warning-level observation listing the detected
entity types for every message whose content has detectable PII, and keeps
scanning subsequent messages (every analyzable message is analyzed).  The
*regex* pre-call guardrail has no `block_on_detection` option and raises
regardless (see the counterexample). -/
theorem c1_presidio_precall_nonblocking (g : PIIPresidioPreCallGuardrail)
    (hb : g.block_on_detection = false) (data : RequestData)
    (msgs : List Message) (hm : data.messages? = some msgs) :
    (g.async_pre_call_hook data).1 = .ok data ∧
    (∀ i c, msgs.get? i = some ⟨ContentVal.str c⟩ →
      g.detector.has_pii c g.threshold = true →
      (g.detector.get_analysis_summary c g.threshold).entity_types ∈
        (g.async_pre_call_hook data).2.1) ∧
    (∀ i c, msgs.get? i = some ⟨ContentVal.str c⟩ →
      (c.isEmpty || c.all isSpaceChar) = false →
      i ∈ (g.async_pre_call_hook data).2.2) := by
  unfold PIIPresidioPreCallGuardrail.async_pre_call_hook
  rw [hm]
  cases msgs with
  | nil =>
    refine ⟨rfl, ?_, ?_⟩ <;> intro i c h <;> simp at h
  | cons m rest =>
    simp only [List.isEmpty_cons, Bool.false_eq_true, if_false]
    have hs := presidioPreScan_nonblocking g hb (m :: rest) 0
    refine ⟨by rw [hs.1]; rfl, ?_, ?_⟩
    · intro i c hg hp
      exact hs.2.1 i c hg hp
    · intro i c hg hw
      have := hs.2.2 i c hg hw
      rw [Nat.zero_add] at this
      exact this

/-- An analyzer reporting a `PHONE_NUMBER` entity on any text. -/
def phoneAnalyzer : PIIPresidioDetection :=
  ⟨fun _ => .ok [{ entity_type := "PHONE_NUMBER", start := 0, «end» := 12,
                   score := 1 }]⟩

/-- A Presidio pre-call guardrail with blocking disabled. -/
def nonBlockingGuard : PIIPresidioPreCallGuardrail :=
  ⟨0, false, phoneAnalyzer⟩

/-- The one-phone-number payload of the claim's scenario. -/
def phoneData : RequestData :=
  ⟨some [⟨ContentVal.str "My number is 555-123-4567".data⟩]⟩

/-- Witness for C1 (amended) at a concrete non-blocking invocation: payload
returned unchanged, warning emitted with the detected types, message 0
analyzed. -/
theorem c1_presidio_precall_nonblocking_witness :
    (nonBlockingGuard.async_pre_call_hook phoneData).1 = .ok phoneData ∧
    (nonBlockingGuard.detector.get_analysis_summary
        "My number is 555-123-4567".data 0).entity_types ∈
      (nonBlockingGuard.async_pre_call_hook phoneData).2.1 ∧
    0 ∈ (nonBlockingGuard.async_pre_call_hook phoneData).2.2 := by
  have h := c1_presidio_precall_nonblocking nonBlockingGuard rfl phoneData
    [⟨ContentVal.str "My number is 555-123-4567".data⟩] rfl
  exact ⟨h.1, h.2.1 0 _ rfl rfl, h.2.2 0 _ rfl (by decide)⟩

/-- C1, counterexample: the *regex* pre-call guardrail raises on a phone
number even when constructed with `block_on_detection = false` (the kwarg is
stored but never read), so the claim's "for both ... guardrails" fails: the
payload is not returned and scanning stops. -/
theorem c1_regex_precall_ignores_block_flag :
    (PIIRegexPreCallGuardrail.async_pre_call_hook ⟨some false⟩
        ⟨some [⟨ContentVal.str "555-123-4567".data⟩]⟩).1 =
      .error "Pre-call guardrail blocked PII detected: phone" := by
  have : PIIRegexDetection.get_detected_types "555-123-4567".data = ["phone"] := by decide
  simp [PIIRegexPreCallGuardrail.async_pre_call_hook, regexPreScan,
    regexBlockMsg, this, show PIIRegexDetection.has_pii "555-123-4567".data = true from by decide]
  rfl

/-! ## Claim C2 — short-circuit on the first blocking violation

A unit "triggers" when the hook's per-unit guard passes and the detector
reports PII on its content — exactly the condition under which the source
enters its violation branch. -/

/-- Trigger of `PIIPresidioPreCallGuardrail`: string content with PII. -/
def presidioPreTrig (g : PIIPresidioPreCallGuardrail) (m : Message) : Bool :=
  match m.content with
  | ContentVal.str c => g.detector.has_pii c g.threshold
  | ContentVal.nonStr => false

/-- Trigger of `PIIRegexPreCallGuardrail`: string content with PII. -/
def regexPreTrig (m : Message) : Bool :=
  match m.content with
  | ContentVal.str c => PIIRegexDetection.has_pii c
  | ContentVal.nonStr => false

/-- Trigger of `PIIRegexPostCallGuardrail`: a `Choices` entry with truthy
string content that has PII. -/
def regexPostTrig (ch : Choice) : Bool :=
  match ch with
  | Choice.choices (ContentVal.str c) => !c.isEmpty && PIIRegexDetection.has_pii c
  | _ => false

/-- Trigger of `PIIPresidioPostCallGuardrail`. -/
def presidioPostTrig (g : PIIPresidioPostCallGuardrail) (ch : Choice) : Bool :=
  match ch with
  | Choice.choices (ContentVal.str c) => !c.isEmpty && g.detector.has_pii c g.threshold
  | _ => false

/-- Short-circuit of the blocking Presidio pre-call scan: if message `i` is
the first trigger, the scan raises with exactly the types of message `i`,
and the analyzer is never invoked past position `k + i`. -/
theorem presidioPreScan_first_block (g : PIIPresidioPreCallGuardrail)
    (hb : g.block_on_detection = true) (msgs : List Message) (k i : Nat)
    (m : Message) (c : List Char)
    (hfirst : ∀ j mj, j < i → msgs.get? j = some mj → presidioPreTrig g mj = false)
    (hi : msgs.get? i = some m) (hc : m.content = ContentVal.str c)
    (htrig : g.detector.has_pii c g.threshold = true) :
    (presidioPreScan g msgs k).1 = .error (presidioBlockMsg "Pre-call"
      (g.detector.get_analysis_summary c g.threshold).entity_types g.threshold) ∧
    ∀ x ∈ (presidioPreScan g msgs k).2.2, x ≤ k + i := by
  induction msgs generalizing k i with
  | nil => simp at hi
  | cons m0 rest ih =>
    cases i with
    | zero =>
      rw [List.get?_cons_zero] at hi
      obtain rfl := Option.some.inj hi
      have htrig' : (g.detector.has_piiT c g.threshold).1 = true := htrig
      simp only [presidioPreScan, hc]
      rw [if_pos htrig', if_pos hb]
      constructor
      · rfl
      · intro x hx
        rw [Nat.add_zero]
        rcases List.mem_append.1 hx with hx | hx <;>
          exact Nat.le_of_eq (List.eq_of_mem_replicate hx)
    | succ j =>
      rw [List.get?_cons_succ] at hi
      have h0 : presidioPreTrig g m0 = false :=
        hfirst 0 m0 (Nat.succ_pos j) List.get?_cons_zero
      have hfirst' : ∀ j' mj, j' < j → rest.get? j' = some mj →
          presidioPreTrig g mj = false := fun j' mj hj' hg =>
        hfirst (j' + 1) mj (Nat.succ_lt_succ hj') (by rw [List.get?_cons_succ]; exact hg)
      have ihr := ih (k + 1) j hfirst' hi
      cases hm0 : m0.content with
      | nonStr =>
        simp only [presidioPreScan, hm0]
        refine ⟨ihr.1, fun x hx => ?_⟩
        have := ihr.2 x hx
        omega
      | str c0 =>
        have hp0 : (g.detector.has_piiT c0 g.threshold).1 = false := by
          have h' := h0
          unfold presidioPreTrig at h'
          rw [hm0] at h'
          exact h'
        simp only [presidioPreScan, hm0]
        rw [if_neg (by rw [hp0]; exact Bool.false_ne_true)]
        refine ⟨ihr.1, fun x hx => ?_⟩
        rcases List.mem_append.1 hx with hx | hx
        · have := List.eq_of_mem_replicate hx
          omega
        · have := ihr.2 x hx
          omega

/-- Short-circuit of the regex pre-call scan (always blocking): if message
`i` is the first trigger, the scan raises with exactly the types detected in
message `i`, and the detector is never invoked past position `k + i`. -/
theorem regexPreScan_first_block (msgs : List Message) (k i : Nat)
    (m : Message) (c : List Char)
    (hfirst : ∀ j mj, j < i → msgs.get? j = some mj → regexPreTrig mj = false)
    (hi : msgs.get? i = some m) (hc : m.content = ContentVal.str c)
    (htrig : PIIRegexDetection.has_pii c = true) :
    (regexPreScan msgs k).1 = .error (regexBlockMsg "Pre-call"
      (PIIRegexDetection.get_detected_types c)) ∧
    ∀ x ∈ (regexPreScan msgs k).2, x ≤ k + i := by
  induction msgs generalizing k i with
  | nil => simp at hi
  | cons m0 rest ih =>
    cases i with
    | zero =>
      rw [List.get?_cons_zero] at hi
      obtain rfl := Option.some.inj hi
      simp only [regexPreScan, hc]
      rw [if_pos htrig]
      refine ⟨rfl, fun x hx => ?_⟩
      rw [Nat.add_zero]
      simp only [List.mem_cons, List.not_mem_nil, or_false] at hx
      rcases hx with rfl | rfl <;> omega
    | succ j =>
      rw [List.get?_cons_succ] at hi
      have h0 : regexPreTrig m0 = false :=
        hfirst 0 m0 (Nat.succ_pos j) List.get?_cons_zero
      have hfirst' : ∀ j' mj, j' < j → rest.get? j' = some mj →
          regexPreTrig mj = false := fun j' mj hj' hg =>
        hfirst (j' + 1) mj (Nat.succ_lt_succ hj') (by rw [List.get?_cons_succ]; exact hg)
      have ihr := ih (k + 1) j hfirst' hi
      cases hm0 : m0.content with
      | nonStr =>
        simp only [regexPreScan, hm0]
        exact ⟨ihr.1, fun x hx => by have := ihr.2 x hx; omega⟩
      | str c0 =>
        have hp0 : PIIRegexDetection.has_pii c0 = false := by
          have h' := h0; unfold regexPreTrig at h'; rw [hm0] at h'; exact h'
        simp only [regexPreScan, hm0]
        rw [if_neg (by rw [hp0]; exact Bool.false_ne_true)]
        refine ⟨ihr.1, fun x hx => ?_⟩
        rcases List.mem_cons.1 hx with rfl | hx
        · omega
        · have := ihr.2 x hx; omega

/-- Short-circuit of the regex post-call scan (always blocking), as
`regexPreScan_first_block` but over response choices. -/
theorem regexPostScan_first_block (chs : List Choice) (k i : Nat)
    (ch : Choice) (c : List Char)
    (hfirst : ∀ j chj, j < i → chs.get? j = some chj → regexPostTrig chj = false)
    (hi : chs.get? i = some ch) (hc : ch = Choice.choices (ContentVal.str c))
    (hne : c.isEmpty = false) (htrig : PIIRegexDetection.has_pii c = true) :
    (regexPostScan chs k).1 = .error (regexBlockMsg "Post-call"
      (PIIRegexDetection.get_detected_types c)) ∧
    ∀ x ∈ (regexPostScan chs k).2, x ≤ k + i := by
  induction chs generalizing k i with
  | nil => simp at hi
  | cons ch0 rest ih =>
    cases i with
    | zero =>
      rw [List.get?_cons_zero] at hi
      obtain rfl := Option.some.inj hi
      subst hc
      simp only [regexPostScan]
      rw [if_neg (by rw [hne]; exact Bool.false_ne_true), if_pos htrig]
      refine ⟨rfl, fun x hx => ?_⟩
      rw [Nat.add_zero]
      simp only [List.mem_cons, List.not_mem_nil, or_false] at hx
      rcases hx with rfl | rfl <;> omega
    | succ j =>
      rw [List.get?_cons_succ] at hi
      have h0 : regexPostTrig ch0 = false :=
        hfirst 0 ch0 (Nat.succ_pos j) List.get?_cons_zero
      have hfirst' : ∀ j' chj, j' < j → rest.get? j' = some chj →
          regexPostTrig chj = false := fun j' chj hj' hg =>
        hfirst (j' + 1) chj (Nat.succ_lt_succ hj') (by rw [List.get?_cons_succ]; exact hg)
      have ihr := ih (k + 1) j hfirst' hi
      cases ch0 with
      | nonChoices =>
        simp only [regexPostScan]
        exact ⟨ihr.1, fun x hx => by have := ihr.2 x hx; omega⟩
      | choices cv =>
        cases cv with
        | nonStr =>
          simp only [regexPostScan]
          exact ⟨ihr.1, fun x hx => by have := ihr.2 x hx; omega⟩
        | str c0 =>
          by_cases he0 : c0.isEmpty = true
          · simp only [regexPostScan]
            rw [if_pos he0]
            exact ⟨ihr.1, fun x hx => by have := ihr.2 x hx; omega⟩
          · have hee : c0.isEmpty = false := Bool.eq_false_iff.2 he0
            have hp0 : PIIRegexDetection.has_pii c0 = false := by
              have h' := h0
              simp only [regexPostTrig] at h'
              rw [hee] at h'
              simpa using h'
            simp only [regexPostScan]
            rw [if_neg (by rw [hee]; exact Bool.false_ne_true),
              if_neg (by rw [hp0]; exact Bool.false_ne_true)]
            refine ⟨ihr.1, fun x hx => ?_⟩
            rcases List.mem_cons.1 hx with rfl | hx
            · omega
            · have := ihr.2 x hx; omega

/-- Short-circuit of the blocking Presidio post-call scan. -/
theorem presidioPostScan_first_block (g : PIIPresidioPostCallGuardrail)
    (hb : g.block_on_detection = true) (chs : List Choice) (k i : Nat)
    (ch : Choice) (c : List Char)
    (hfirst : ∀ j chj, j < i → chs.get? j = some chj → presidioPostTrig g chj = false)
    (hi : chs.get? i = some ch) (hc : ch = Choice.choices (ContentVal.str c))
    (hne : c.isEmpty = false)
    (htrig : g.detector.has_pii c g.threshold = true) :
    (presidioPostScan g chs k).1 = .error (presidioBlockMsg "Post-call"
      (g.detector.get_analysis_summary c g.threshold).entity_types g.threshold) ∧
    ∀ x ∈ (presidioPostScan g chs k).2.2, x ≤ k + i := by
  induction chs generalizing k i with
  | nil => simp at hi
  | cons ch0 rest ih =>
    cases i with
    | zero =>
      rw [List.get?_cons_zero] at hi
      obtain rfl := Option.some.inj hi
      subst hc
      have htrig' : (g.detector.has_piiT c g.threshold).1 = true := htrig
      simp only [presidioPostScan]
      rw [if_neg (by rw [hne]; exact Bool.false_ne_true), if_pos htrig', if_pos hb]
      constructor
      · rfl
      · intro x hx
        rw [Nat.add_zero]
        rcases List.mem_append.1 hx with hx | hx <;>
          exact Nat.le_of_eq (List.eq_of_mem_replicate hx)
    | succ j =>
      rw [List.get?_cons_succ] at hi
      have h0 : presidioPostTrig g ch0 = false :=
        hfirst 0 ch0 (Nat.succ_pos j) List.get?_cons_zero
      have hfirst' : ∀ j' chj, j' < j → rest.get? j' = some chj →
          presidioPostTrig g chj = false := fun j' chj hj' hg =>
        hfirst (j' + 1) chj (Nat.succ_lt_succ hj') (by rw [List.get?_cons_succ]; exact hg)
      have ihr := ih (k + 1) j hfirst' hi
      cases ch0 with
      | nonChoices =>
        simp only [presidioPostScan]
        exact ⟨ihr.1, fun x hx => by have := ihr.2 x hx; omega⟩
      | choices cv =>
        cases cv with
        | nonStr =>
          simp only [presidioPostScan]
          exact ⟨ihr.1, fun x hx => by have := ihr.2 x hx; omega⟩
        | str c0 =>
          by_cases he0 : c0.isEmpty = true
          · simp only [presidioPostScan]
            rw [if_pos he0]
            exact ⟨ihr.1, fun x hx => by have := ihr.2 x hx; omega⟩
          · have hee : c0.isEmpty = false := Bool.eq_false_iff.2 he0
            have hp0 : (g.detector.has_piiT c0 g.threshold).1 = false := by
              have h' := h0
              simp only [presidioPostTrig] at h'
              rw [hee] at h'
              simpa [PIIPresidioDetection.has_pii] using h'
            simp only [presidioPostScan]
            rw [if_neg (by rw [hee]; exact Bool.false_ne_true),
              if_neg (by rw [hp0]; exact Bool.false_ne_true)]
            refine ⟨ihr.1, fun x hx => ?_⟩
            rcases List.mem_append.1 hx with hx | hx
            · have := List.eq_of_mem_replicate hx
              omega
            · have := ihr.2 x hx; omega

/-- C2: in every hook with blocking enabled (the regex hooks block
unconditionally), if unit `i` is the first unit triggering a blocking
violation, the hook raises a violation carrying exactly the types detected
in unit `i`, and the detection engine is never invoked on any unit past `i`
(every recorded invocation index is `≤ i`). -/
theorem c2_first_violation_short_circuits :
    (∀ (g : PIIPresidioPreCallGuardrail) (data : RequestData)
      (msgs : List Message) (i : Nat) (m : Message) (c : List Char),
      g.block_on_detection = true → data.messages? = some msgs →
      (∀ j mj, j < i → msgs.get? j = some mj → presidioPreTrig g mj = false) →
      msgs.get? i = some m → m.content = ContentVal.str c →
      g.detector.has_pii c g.threshold = true →
      (g.async_pre_call_hook data).1 = .error (presidioBlockMsg "Pre-call"
        (g.detector.get_analysis_summary c g.threshold).entity_types g.threshold) ∧
      ∀ x ∈ (g.async_pre_call_hook data).2.2, x ≤ i) ∧
    (∀ (_g : PIIRegexPreCallGuardrail) (data : RequestData)
      (msgs : List Message) (i : Nat) (m : Message) (c : List Char),
      data.messages? = some msgs →
      (∀ j mj, j < i → msgs.get? j = some mj → regexPreTrig mj = false) →
      msgs.get? i = some m → m.content = ContentVal.str c →
      PIIRegexDetection.has_pii c = true →
      (PIIRegexPreCallGuardrail.async_pre_call_hook _g data).1 =
        .error (regexBlockMsg "Pre-call" (PIIRegexDetection.get_detected_types c)) ∧
      ∀ x ∈ (PIIRegexPreCallGuardrail.async_pre_call_hook _g data).2, x ≤ i) ∧
    (∀ (chs : List Choice) (i : Nat) (ch : Choice) (c : List Char),
      (∀ j chj, j < i → chs.get? j = some chj → regexPostTrig chj = false) →
      chs.get? i = some ch → ch = Choice.choices (ContentVal.str c) →
      c.isEmpty = false → PIIRegexDetection.has_pii c = true →
      (PIIRegexPostCallGuardrail.async_post_call_success_hook
          (Response.modelResponse chs)).1 =
        .error (regexBlockMsg "Post-call" (PIIRegexDetection.get_detected_types c)) ∧
      ∀ x ∈ (PIIRegexPostCallGuardrail.async_post_call_success_hook
          (Response.modelResponse chs)).2, x ≤ i) ∧
    (∀ (g : PIIPresidioPostCallGuardrail) (chs : List Choice) (i : Nat)
      (ch : Choice) (c : List Char),
      g.block_on_detection = true →
      (∀ j chj, j < i → chs.get? j = some chj → presidioPostTrig g chj = false) →
      chs.get? i = some ch → ch = Choice.choices (ContentVal.str c) →
      c.isEmpty = false → g.detector.has_pii c g.threshold = true →
      (g.async_post_call_success_hook (Response.modelResponse chs)).1 =
        .error (presidioBlockMsg "Post-call"
          (g.detector.get_analysis_summary c g.threshold).entity_types g.threshold) ∧
      ∀ x ∈ (g.async_post_call_success_hook (Response.modelResponse chs)).2.2,
        x ≤ i) := by
  refine ⟨?_, ?_, ?_, ?_⟩
  · intro g data msgs i m c hb hm hfirst hi hc htrig
    unfold PIIPresidioPreCallGuardrail.async_pre_call_hook
    rw [hm]
    cases msgs with
    | nil => simp at hi
    | cons m0 rest =>
      simp only [List.isEmpty_cons, Bool.false_eq_true, if_false]
      have hs := presidioPreScan_first_block g hb (m0 :: rest) 0 i m c hfirst hi hc htrig
      refine ⟨by rw [hs.1]; rfl, fun x hx => ?_⟩
      have := hs.2 x hx
      omega
  · intro _g data msgs i m c hm hfirst hi hc htrig
    unfold PIIRegexPreCallGuardrail.async_pre_call_hook
    rw [hm]
    cases msgs with
    | nil => simp at hi
    | cons m0 rest =>
      simp only [List.isEmpty_cons, Bool.false_eq_true, if_false]
      have hs := regexPreScan_first_block (m0 :: rest) 0 i m c hfirst hi hc htrig
      refine ⟨by rw [hs.1]; rfl, fun x hx => ?_⟩
      have := hs.2 x hx
      omega
  · intro chs i ch c hfirst hi hc hne htrig
    have hs := regexPostScan_first_block chs 0 i ch c hfirst hi hc hne htrig
    exact ⟨hs.1, fun x hx => by have := hs.2 x hx; omega⟩
  · intro g chs i ch c hb hfirst hi hc hne htrig
    have hs := presidioPostScan_first_block g hb chs 0 i ch c hfirst hi hc hne htrig
    exact ⟨hs.1, fun x hx => by have := hs.2 x hx; omega⟩

/-- A blocking Presidio pre-call guardrail over the phone analyzer. -/
def blockingPreGuard : PIIPresidioPreCallGuardrail := ⟨0, true, phoneAnalyzer⟩

/-- A blocking Presidio post-call guardrail over the phone analyzer. -/
def blockingPostGuard : PIIPresidioPostCallGuardrail := ⟨0, true, phoneAnalyzer⟩

/-- Witness for C2: each of the four hooks, invoked on a concrete payload
whose first unit triggers, raises with that unit's types and analyzes no
unit past it. -/
theorem c2_first_violation_short_circuits_witness :
    ((blockingPreGuard.async_pre_call_hook
        ⟨some [⟨ContentVal.str "call 555-123-4567".data⟩]⟩).1 =
      .error (presidioBlockMsg "Pre-call"
        (blockingPreGuard.detector.get_analysis_summary
          "call 555-123-4567".data blockingPreGuard.threshold).entity_types
        blockingPreGuard.threshold) ∧
      ∀ x ∈ (blockingPreGuard.async_pre_call_hook
        ⟨some [⟨ContentVal.str "call 555-123-4567".data⟩]⟩).2.2, x ≤ 0) ∧
    ((PIIRegexPreCallGuardrail.async_pre_call_hook ⟨none⟩
        ⟨some [⟨ContentVal.str "ssn 123-45-6789".data⟩]⟩).1 =
      .error (regexBlockMsg "Pre-call"
        (PIIRegexDetection.get_detected_types "ssn 123-45-6789".data)) ∧
      ∀ x ∈ (PIIRegexPreCallGuardrail.async_pre_call_hook ⟨none⟩
        ⟨some [⟨ContentVal.str "ssn 123-45-6789".data⟩]⟩).2, x ≤ 0) ∧
    ((PIIRegexPostCallGuardrail.async_post_call_success_hook
        (Response.modelResponse [Choice.choices (ContentVal.str "a@b.co".data)])).1 =
      .error (regexBlockMsg "Post-call"
        (PIIRegexDetection.get_detected_types "a@b.co".data)) ∧
      ∀ x ∈ (PIIRegexPostCallGuardrail.async_post_call_success_hook
        (Response.modelResponse [Choice.choices (ContentVal.str "a@b.co".data)])).2,
        x ≤ 0) ∧
    ((blockingPostGuard.async_post_call_success_hook
        (Response.modelResponse [Choice.choices (ContentVal.str "Boston".data)])).1 =
      .error (presidioBlockMsg "Post-call"
        (blockingPostGuard.detector.get_analysis_summary
          "Boston".data blockingPostGuard.threshold).entity_types
        blockingPostGuard.threshold) ∧
      ∀ x ∈ (blockingPostGuard.async_post_call_success_hook
        (Response.modelResponse [Choice.choices (ContentVal.str "Boston".data)])).2.2,
        x ≤ 0) := by
  refine ⟨?_, ?_, ?_, ?_⟩
  · exact c2_first_violation_short_circuits.1 blockingPreGuard
      ⟨some [⟨ContentVal.str "call 555-123-4567".data⟩]⟩
      [⟨ContentVal.str "call 555-123-4567".data⟩] 0 _ _ rfl rfl
      (fun j mj hj _ => absurd hj (Nat.not_lt_zero j)) rfl rfl (by decide)
  · exact c2_first_violation_short_circuits.2.1 ⟨none⟩
      ⟨some [⟨ContentVal.str "ssn 123-45-6789".data⟩]⟩
      [⟨ContentVal.str "ssn 123-45-6789".data⟩] 0 _ _ rfl
      (fun j mj hj _ => absurd hj (Nat.not_lt_zero j)) rfl rfl (by decide)
  · exact c2_first_violation_short_circuits.2.2.1
      [Choice.choices (ContentVal.str "a@b.co".data)] 0 _ _
      (fun j chj hj _ => absurd hj (Nat.not_lt_zero j)) rfl rfl (by decide) (by decide)
  · exact c2_first_violation_short_circuits.2.2.2 blockingPostGuard
      [Choice.choices (ContentVal.str "Boston".data)] 0 _ _ rfl
      (fun j chj hj _ => absurd hj (Nat.not_lt_zero j)) rfl rfl (by decide) (by decide)

/-! ## Claim C4 — shape of every blocking-violation message -/

/-- Inversion: a raise of the Presidio pre-call scan comes from some message
with PII-bearing string content, and the message is built from that
unit's entity types and the threshold alone. -/
theorem presidioPreScan_error_shape (g : PIIPresidioPreCallGuardrail)
    (msgs : List Message) (k : Nat) (msg : String)
    (h : (presidioPreScan g msgs k).1 = .error msg) :
    ∃ i m c, msgs.get? i = some m ∧ m.content = ContentVal.str c ∧
      g.detector.has_pii c g.threshold = true ∧
      msg = presidioBlockMsg "Pre-call"
        (g.detector.get_analysis_summary c g.threshold).entity_types g.threshold := by
  induction msgs generalizing k with
  | nil => exact absurd h (by simp [presidioPreScan])
  | cons m0 rest ih =>
    cases hm0 : m0.content with
    | nonStr =>
      simp only [presidioPreScan, hm0] at h
      obtain ⟨i, m, c, h1, h2, h3, h4⟩ := ih (k + 1) h
      exact ⟨i + 1, m, c, by rw [List.get?_cons_succ]; exact h1, h2, h3, h4⟩
    | str c0 =>
      simp only [presidioPreScan, hm0] at h
      by_cases hp : (g.detector.has_piiT c0 g.threshold).1 = true
      · rw [if_pos hp] at h
        by_cases hbl : g.block_on_detection = true
        · rw [if_pos hbl] at h
          exact ⟨0, m0, c0, List.get?_cons_zero, hm0, hp, (Except.error.inj h).symm⟩
        · rw [if_neg hbl] at h
          obtain ⟨i, m, c, h1, h2, h3, h4⟩ := ih (k + 1) h
          exact ⟨i + 1, m, c, by rw [List.get?_cons_succ]; exact h1, h2, h3, h4⟩
      · rw [if_neg hp] at h
        obtain ⟨i, m, c, h1, h2, h3, h4⟩ := ih (k + 1) h
        exact ⟨i + 1, m, c, by rw [List.get?_cons_succ]; exact h1, h2, h3, h4⟩

/-- Inversion for the regex pre-call scan. -/
theorem regexPreScan_error_shape (msgs : List Message) (k : Nat) (msg : String)
    (h : (regexPreScan msgs k).1 = .error msg) :
    ∃ i m c, msgs.get? i = some m ∧ m.content = ContentVal.str c ∧
      PIIRegexDetection.has_pii c = true ∧
      msg = regexBlockMsg "Pre-call" (PIIRegexDetection.get_detected_types c) := by
  induction msgs generalizing k with
  | nil => exact absurd h (by simp [regexPreScan])
  | cons m0 rest ih =>
    cases hm0 : m0.content with
    | nonStr =>
      simp only [regexPreScan, hm0] at h
      obtain ⟨i, m, c, h1, h2, h3, h4⟩ := ih (k + 1) h
      exact ⟨i + 1, m, c, by rw [List.get?_cons_succ]; exact h1, h2, h3, h4⟩
    | str c0 =>
      simp only [regexPreScan, hm0] at h
      by_cases hp : PIIRegexDetection.has_pii c0 = true
      · rw [if_pos hp] at h
        exact ⟨0, m0, c0, List.get?_cons_zero, hm0, hp, (Except.error.inj h).symm⟩
      · rw [if_neg hp] at h
        obtain ⟨i, m, c, h1, h2, h3, h4⟩ := ih (k + 1) h
        exact ⟨i + 1, m, c, by rw [List.get?_cons_succ]; exact h1, h2, h3, h4⟩

/-- Inversion for the regex post-call scan. -/
theorem regexPostScan_error_shape (chs : List Choice) (k : Nat) (msg : String)
    (h : (regexPostScan chs k).1 = .error msg) :
    ∃ i c, chs.get? i = some (Choice.choices (ContentVal.str c)) ∧
      c.isEmpty = false ∧ PIIRegexDetection.has_pii c = true ∧
      msg = regexBlockMsg "Post-call" (PIIRegexDetection.get_detected_types c) := by
  induction chs generalizing k with
  | nil => exact absurd h (by simp [regexPostScan])
  | cons ch0 rest ih =>
    cases ch0 with
    | nonChoices =>
      simp only [regexPostScan] at h
      obtain ⟨i, c, h1, h2, h3, h4⟩ := ih (k + 1) h
      exact ⟨i + 1, c, by rw [List.get?_cons_succ]; exact h1, h2, h3, h4⟩
    | choices cv =>
      cases cv with
      | nonStr =>
        simp only [regexPostScan] at h
        obtain ⟨i, c, h1, h2, h3, h4⟩ := ih (k + 1) h
        exact ⟨i + 1, c, by rw [List.get?_cons_succ]; exact h1, h2, h3, h4⟩
      | str c0 =>
        simp only [regexPostScan] at h
        by_cases he : c0.isEmpty = true
        · rw [if_pos he] at h
          obtain ⟨i, c, h1, h2, h3, h4⟩ := ih (k + 1) h
          exact ⟨i + 1, c, by rw [List.get?_cons_succ]; exact h1, h2, h3, h4⟩
        · rw [if_neg he] at h
          by_cases hp : PIIRegexDetection.has_pii c0 = true
          · rw [if_pos hp] at h
            exact ⟨0, c0, List.get?_cons_zero, Bool.eq_false_iff.2 he, hp,
              (Except.error.inj h).symm⟩
          · rw [if_neg hp] at h
            obtain ⟨i, c, h1, h2, h3, h4⟩ := ih (k + 1) h
            exact ⟨i + 1, c, by rw [List.get?_cons_succ]; exact h1, h2, h3, h4⟩

/-- Inversion for the Presidio post-call scan. -/
theorem presidioPostScan_error_shape (g : PIIPresidioPostCallGuardrail)
    (chs : List Choice) (k : Nat) (msg : String)
    (h : (presidioPostScan g chs k).1 = .error msg) :
    ∃ i c, chs.get? i = some (Choice.choices (ContentVal.str c)) ∧
      c.isEmpty = false ∧ g.detector.has_pii c g.threshold = true ∧
      msg = presidioBlockMsg "Post-call"
        (g.detector.get_analysis_summary c g.threshold).entity_types g.threshold := by
  induction chs generalizing k with
  | nil => exact absurd h (by simp [presidioPostScan])
  | cons ch0 rest ih =>
    cases ch0 with
    | nonChoices =>
      simp only [presidioPostScan] at h
      obtain ⟨i, c, h1, h2, h3, h4⟩ := ih (k + 1) h
      exact ⟨i + 1, c, by rw [List.get?_cons_succ]; exact h1, h2, h3, h4⟩
    | choices cv =>
      cases cv with
      | nonStr =>
        simp only [presidioPostScan] at h
        obtain ⟨i, c, h1, h2, h3, h4⟩ := ih (k + 1) h
        exact ⟨i + 1, c, by rw [List.get?_cons_succ]; exact h1, h2, h3, h4⟩
      | str c0 =>
        simp only [presidioPostScan] at h
        by_cases he : c0.isEmpty = true
        · rw [if_pos he] at h
          obtain ⟨i, c, h1, h2, h3, h4⟩ := ih (k + 1) h
          exact ⟨i + 1, c, by rw [List.get?_cons_succ]; exact h1, h2, h3, h4⟩
        · rw [if_neg he] at h
          by_cases hp : (g.detector.has_piiT c0 g.threshold).1 = true
          · rw [if_pos hp] at h
            by_cases hbl : g.block_on_detection = true
            · rw [if_pos hbl] at h
              exact ⟨0, c0, List.get?_cons_zero, Bool.eq_false_iff.2 he, hp,
                (Except.error.inj h).symm⟩
            · rw [if_neg hbl] at h
              obtain ⟨i, c, h1, h2, h3, h4⟩ := ih (k + 1) h
              exact ⟨i + 1, c, by rw [List.get?_cons_succ]; exact h1, h2, h3, h4⟩
          · rw [if_neg hp] at h
            obtain ⟨i, c, h1, h2, h3, h4⟩ := ih (k + 1) h
            exact ⟨i + 1, c, by rw [List.get?_cons_succ]; exact h1, h2, h3, h4⟩

/-- Every entry of `get_detected_types` is one of the four type names. -/
theorem get_detected_types_subset (c : List Char) :
    ∀ s ∈ PIIRegexDetection.get_detected_types c,
      s ∈ (["email", "ssn", "phone", "credit_card"] : List String) := by
  intro s hs
  unfold PIIRegexDetection.get_detected_types at hs
  by_cases he : c.isEmpty = true
  · rw [if_pos he] at hs; simp at hs
  · rw [if_neg he] at hs
    simp only [List.mem_append] at hs
    rcases hs with ((hs | hs) | hs) | hs <;> split at hs <;> simp_all

/-- The violation message of the regex hooks contains no digit and no `'@'`:
it is a fixed phrase followed by a comma-separated join of type names. -/
theorem regexBlockMsg_clean (phase : String)
    (hph : phase = "Pre-call" ∨ phase = "Post-call") (c : List Char) :
    ∀ ch ∈ (regexBlockMsg phase (PIIRegexDetection.get_detected_types c)).data,
      isDigitChar ch = false ∧ ch ≠ '@' := by
  unfold PIIRegexDetection.get_detected_types
  by_cases he : c.isEmpty = true
  · rcases hph with rfl | rfl <;> simp only [he, if_true] <;> decide
  · rcases hph with rfl | rfl <;>
      simp only [he, Bool.false_eq_true, if_false] <;>
      cases h1 : emailSearch c <;> cases h2 : ssnSearch c <;>
      cases h3 : phoneSearch c <;> cases h4 : cardSearch c <;>
      simp [h1, h2, h3, h4] <;> decide

/-- A message without digits or `'@'` cannot contain, as a contiguous
substring, any text matched by one of the four pattern cores. -/
theorem clean_msg_no_core_match (msg : String)
    (hclean : ∀ ch ∈ msg.data, isDigitChar ch = false ∧ ch ≠ '@')
    (matched : List Char)
    (hm : emailCore matched = true ∨ ssnCore matched = true ∨
      phoneCore matched = true ∨ cardCore matched = true) :
    ¬ ∃ p q, msg.data = p ++ matched ++ q := by
  rintro ⟨p, q, hpq⟩
  have hx : ∃ ch, ch ∈ matched ∧ (isDigitChar ch = true ∨ ch = '@') := by
    rcases hm with h | h | h | h
    · exact ⟨'@', emailCore_mem _ h, Or.inr rfl⟩
    · obtain ⟨ch, hc, hd⟩ := ssnCore_mem _ h; exact ⟨ch, hc, Or.inl hd⟩
    · obtain ⟨ch, hc, hd⟩ := phoneCore_mem _ h; exact ⟨ch, hc, Or.inl hd⟩
    · obtain ⟨ch, hc, hd⟩ := cardCore_mem _ h; exact ⟨ch, hc, Or.inl hd⟩
  obtain ⟨ch, hcm, hd⟩ := hx
  have hmem : ch ∈ msg.data := by
    rw [hpq]
    exact List.mem_append_left q (List.mem_append_right p hcm)
  obtain ⟨hnd, hna⟩ := hclean ch hmem
  rcases hd with hd | hd
  · rw [hnd] at hd; exact Bool.false_ne_true hd
  · exact hna hd

/-- C4, amended: every blocking violation raised by one of the four hooks
carries a message computed solely from the detected entity types of the
violating unit (and, for the Presidio hooks, the configured threshold, which
the message names; the regex hooks have no threshold and name none — see the
counterexample).  The matched text of an entity never enters the message
builders; for the regex hooks the message provably cannot contain any text
matching one of the four patterns. -/
theorem c4_violation_message_shape :
    (∀ (_g : PIIRegexPreCallGuardrail) (data : RequestData) (msg : String),
      (PIIRegexPreCallGuardrail.async_pre_call_hook _g data).1 = .error msg →
      ∃ msgs i m c, data.messages? = some msgs ∧ msgs.get? i = some m ∧
        m.content = ContentVal.str c ∧ PIIRegexDetection.has_pii c = true ∧
        msg = regexBlockMsg "Pre-call" (PIIRegexDetection.get_detected_types c) ∧
        ∀ matched, (emailCore matched = true ∨ ssnCore matched = true ∨
          phoneCore matched = true ∨ cardCore matched = true) →
          ¬ ∃ p q, msg.data = p ++ matched ++ q) ∧
    (∀ (chs : List Choice) (msg : String),
      (PIIRegexPostCallGuardrail.async_post_call_success_hook
        (Response.modelResponse chs)).1 = .error msg →
      ∃ i c, chs.get? i = some (Choice.choices (ContentVal.str c)) ∧
        PIIRegexDetection.has_pii c = true ∧
        msg = regexBlockMsg "Post-call" (PIIRegexDetection.get_detected_types c) ∧
        ∀ matched, (emailCore matched = true ∨ ssnCore matched = true ∨
          phoneCore matched = true ∨ cardCore matched = true) →
          ¬ ∃ p q, msg.data = p ++ matched ++ q) ∧
    (∀ (g : PIIPresidioPreCallGuardrail) (data : RequestData) (msg : String),
      (g.async_pre_call_hook data).1 = .error msg →
      ∃ msgs i m c, data.messages? = some msgs ∧ msgs.get? i = some m ∧
        m.content = ContentVal.str c ∧
        g.detector.has_pii c g.threshold = true ∧
        msg = presidioBlockMsg "Pre-call"
          (g.detector.get_analysis_summary c g.threshold).entity_types
          g.threshold) ∧
    (∀ (g : PIIPresidioPostCallGuardrail) (chs : List Choice) (msg : String),
      (g.async_post_call_success_hook (Response.modelResponse chs)).1 =
        .error msg →
      ∃ i c, chs.get? i = some (Choice.choices (ContentVal.str c)) ∧
        g.detector.has_pii c g.threshold = true ∧
        msg = presidioBlockMsg "Post-call"
          (g.detector.get_analysis_summary c g.threshold).entity_types
          g.threshold) := by
  refine ⟨?_, ?_, ?_, ?_⟩
  · intro _g data msg h
    unfold PIIRegexPreCallGuardrail.async_pre_call_hook at h
    cases hm : data.messages? with
    | none => rw [hm] at h; simp at h
    | some msgs =>
      rw [hm] at h
      cases msgs with
      | nil => simp at h
      | cons m0 rest =>
        simp only [List.isEmpty_cons, Bool.false_eq_true, if_false] at h
        cases hres : (regexPreScan (m0 :: rest) 0).1 with
        | ok u => rw [hres] at h; simp [Except.map] at h
        | error e =>
          rw [hres] at h
          have hem : e = msg := Except.error.inj h
          obtain ⟨i, m, c, h1, h2, h3, h4⟩ := regexPreScan_error_shape _ 0 e hres
          have hmm : msg = regexBlockMsg "Pre-call"
              (PIIRegexDetection.get_detected_types c) := hem.symm.trans h4
          refine ⟨m0 :: rest, i, m, c, rfl, h1, h2, h3, hmm, fun matched hmt => ?_⟩
          rw [hmm]
          exact clean_msg_no_core_match _
            (regexBlockMsg_clean "Pre-call" (Or.inl rfl) c) matched hmt
  · intro chs msg h
    unfold PIIRegexPostCallGuardrail.async_post_call_success_hook at h
    obtain ⟨i, c, h1, -, h3, h4⟩ := regexPostScan_error_shape chs 0 msg h
    refine ⟨i, c, h1, h3, h4, fun matched hmt => ?_⟩
    rw [h4]
    exact clean_msg_no_core_match _
      (regexBlockMsg_clean "Post-call" (Or.inr rfl) c) matched hmt
  · intro g data msg h
    unfold PIIPresidioPreCallGuardrail.async_pre_call_hook at h
    cases hm : data.messages? with
    | none => rw [hm] at h; simp at h
    | some msgs =>
      rw [hm] at h
      cases msgs with
      | nil => simp at h
      | cons m0 rest =>
        simp only [List.isEmpty_cons, Bool.false_eq_true, if_false] at h
        cases hres : (presidioPreScan g (m0 :: rest) 0).1 with
        | ok u => rw [hres] at h; simp [Except.map] at h
        | error e =>
          rw [hres] at h
          have hem : e = msg := Except.error.inj h
          obtain ⟨i, m, c, h1, h2, h3, h4⟩ :=
            presidioPreScan_error_shape g _ 0 e hres
          exact ⟨m0 :: rest, i, m, c, rfl, h1, h2, h3, hem.symm.trans h4⟩
  · intro g chs msg h
    unfold PIIPresidioPostCallGuardrail.async_post_call_success_hook at h
    exact presidioPostScan_error_shape g chs 0 msg h |>.imp fun i hi =>
      hi.imp fun c hc => ⟨hc.1, hc.2.2.1, hc.2.2.2⟩

/-- The one-SSN payload used by the C4 witness. -/
def ssnData : RequestData :=
  ⟨some [⟨ContentVal.str "my ssn is 123456789".data⟩]⟩

/-- Witness for C4 at a concrete regex pre-call violation. -/
theorem c4_violation_message_shape_witness :
    ∃ msgs i m c, ssnData.messages? = some msgs ∧ msgs.get? i = some m ∧
      m.content = ContentVal.str c ∧ PIIRegexDetection.has_pii c = true ∧
      "Pre-call guardrail blocked PII detected: ssn" =
        regexBlockMsg "Pre-call" (PIIRegexDetection.get_detected_types c) ∧
      ∀ matched, (emailCore matched = true ∨ ssnCore matched = true ∨
        phoneCore matched = true ∨ cardCore matched = true) →
        ¬ ∃ p q, ("Pre-call guardrail blocked PII detected: ssn").data =
          p ++ matched ++ q :=
  c4_violation_message_shape.1 ⟨none⟩ ssnData
    "Pre-call guardrail blocked PII detected: ssn" rfl

/-- C4, counterexample: a blocking violation of the regex pre-call hook
whose message contains no digit character at all — so it does not name any
numeric threshold (e.g. the 0.7 default), contradicting the claim that
every violation message names "the threshold used". -/
theorem c4_regex_message_lacks_threshold :
    (PIIRegexPreCallGuardrail.async_pre_call_hook ⟨none⟩
        ⟨some [⟨ContentVal.str "j.d@x.io".data⟩]⟩).1 =
      .error "Pre-call guardrail blocked PII detected: email" ∧
    ∀ ch ∈ "Pre-call guardrail blocked PII detected: email".data,
      isDigitChar ch = false := by
  exact ⟨rfl, by decide⟩

/-! ## Claim C6 — email detection -/

/-- Position `A.length` of `A ++ c :: B` holds `c`. -/
theorem get?_append_length (A : List Char) (c : Char) (B : List Char) :
    (A ++ c :: B).get? A.length = some c := by
  rw [List.get?_append_right (Nat.le_refl A.length), Nat.sub_self]
  rfl

/-- Word status at the start of the right part of an append. -/
theorem wordAt_append_right (A r : List Char) :
    wordAt (A ++ r) A.length = wordOpt r.head? := by
  unfold wordAt
  rw [List.get?_append_right (Nat.le_refl A.length), Nat.sub_self]
  cases r <;> rfl

/-- Word status just before position `u.length` of `u ++ r` is that of the
last character of `u`. -/
theorem prevWordAt_append (u r : List Char) :
    prevWordAt (u ++ r) u.length = wordOpt u.getLast? := by
  rcases u.eq_nil_or_concat' with rfl | ⟨u', cu, rfl⟩
  · rfl
  · have hlen : (u' ++ [cu]).length = u'.length + 1 := by simp
    rw [hlen, List.getLast?_concat]
    show wordAt ((u' ++ [cu]) ++ r) u'.length = wordOpt (some cu)
    have heq : (u' ++ [cu]) ++ r = u' ++ cu :: r := by simp
    rw [heq]
    unfold wordAt
    rw [get?_append_length]

/-- `\b` at an append point compares the adjacent characters. -/
theorem boundaryAt_append (u r : List Char) :
    boundaryAt (u ++ r) u.length = (wordOpt u.getLast? != wordOpt r.head?) := by
  unfold boundaryAt
  rw [prevWordAt_append, wordAt_append_right]

/-- `\b` holds right after a word character followed by a non-word context. -/
theorem boundaryAt_concat_nonword (A : List Char) (cL : Char) (v : List Char)
    (hw : isWordChar cL = true) (hv : wordOpt v.head? = false) :
    boundaryAt (A ++ cL :: v) (A.length + 1) = true := by
  unfold boundaryAt
  show (wordAt (A ++ cL :: v) A.length != wordAt (A ++ cL :: v) (A.length + 1)) = true
  have h1 : wordAt (A ++ cL :: v) A.length = true := by
    unfold wordAt
    rw [get?_append_length]
    exact hw
  have h2 : wordAt (A ++ cL :: v) (A.length + 1) = false := by
    unfold wordAt
    rw [List.get?_append_right (by omega)]
    have hsub : A.length + 1 - A.length = 1 := by omega
    rw [hsub, List.get?_cons_succ]
    have hh : v.get? 0 = v.head? := by cases v <;> rfl
    rw [hh]
    exact hv
  rw [h1, h2]
  rfl

/-- The middle part of an append, cut at its own offsets. -/
theorem subSlice_middle (u e v : List Char) :
    subSlice (u ++ (e ++ v)) u.length (u.length + e.length) = e := by
  unfold subSlice
  rw [Nat.add_sub_cancel_left, List.drop_left, List.take_left]

/-- Completeness of the email core on a well-formed
`local ++ "@" ++ domain ++ "." ++ final` string. -/
theorem emailCore_complete (l d f : List Char) (hl : l ≠ [])
    (hlc : l.all isLocalChar = true) (hd : d ≠ [])
    (hdc : d.all isDomainChar = true) (hf : 2 ≤ f.length)
    (hfc : f.all isAlphaChar = true) :
    emailCore (l ++ '@' :: (d ++ '.' :: f)) = true := by
  have hlen : (l ++ '@' :: (d ++ '.' :: f)).length =
      l.length + 1 + d.length + 1 + f.length := by simp; omega
  have hld : 0 < d.length := List.length_pos.2 hd
  have hll : 0 < l.length := List.length_pos.2 hl
  unfold emailCore
  rw [List.any_eq_true]
  refine ⟨l.length, List.mem_range.2 (by rw [hlen]; omega), ?_⟩
  simp only [Bool.and_eq_true]
  refine ⟨⟨⟨?_, ?_⟩, ?_⟩, ?_⟩
  · rw [get?_append_length]
    rfl
  · rw [decide_eq_true_eq]
    exact hll
  · rw [List.take_left]
    exact hlc
  · rw [List.any_eq_true]
    refine ⟨l.length + 1 + d.length, List.mem_range.2 (by rw [hlen]; omega), ?_⟩
    simp only [Bool.and_eq_true]
    have hsplit : l ++ '@' :: (d ++ '.' :: f) = (l ++ '@' :: d) ++ '.' :: f := by
      simp
    have hplen : (l ++ '@' :: d).length = l.length + 1 + d.length := by
      simp; omega
    refine ⟨⟨⟨⟨?_, ?_⟩, ?_⟩, ?_⟩, ?_⟩
    · rw [hsplit, ← hplen, get?_append_length]
      rfl
    · rw [decide_eq_true_eq]
      omega
    · have hsplit2 : l ++ '@' :: (d ++ '.' :: f) = (l ++ ['@']) ++ (d ++ '.' :: f) := by
        simp
      have hulen : (l ++ ['@']).length = l.length + 1 := by simp
      rw [hsplit2, ← hulen, subSlice_middle]
      exact hdc
    · have hsplit3 : l ++ '@' :: (d ++ '.' :: f) = ((l ++ ['@']) ++ (d ++ ['.'])) ++ f := by
        simp
      have hblen : ((l ++ ['@']) ++ (d ++ ['.'])).length = l.length + 1 + d.length + 1 := by
        simp; omega
      rw [hsplit3, ← hblen, List.drop_left]
      exact hfc
    · rw [decide_eq_true_eq, hlen]
      omega

/-- A chain of appends headed by a cons has that head. -/
theorem head?_cons_append (c0 : Char) (l0 X v : List Char) :
    (((c0 :: l0) ++ X) ++ v).head? = some c0 := rfl

/-- An alphabetic character is a word character. -/
theorem isWordChar_of_alpha {c : Char} (h : isAlphaChar c = true) :
    isWordChar c = true := by
  unfold isAlphaChar at h
  unfold isWordChar
  rw [h]
  rfl

/-- Completeness of the email search: a well-formed email occurrence whose
ends sit at word boundaries is found. -/
theorem emailSearch_complete (u l d f v : List Char) (hl : l ≠ [])
    (hlc : l.all isLocalChar = true) (hd : d ≠ [])
    (hdc : d.all isDomainChar = true) (hf : 2 ≤ f.length)
    (hfc : f.all isAlphaChar = true)
    (hfront : wordOpt u.getLast? ≠ wordOpt l.head?)
    (hback : wordOpt v.head? = false) :
    emailSearch (u ++ ((l ++ '@' :: (d ++ '.' :: f)) ++ v)) = true := by
  unfold emailSearch reSearchB
  rw [List.any_eq_true]
  have htlen : (u ++ ((l ++ '@' :: (d ++ '.' :: f)) ++ v)).length =
      u.length + ((l ++ '@' :: (d ++ '.' :: f)).length + v.length) := by
    simp; omega
  have helen : (l ++ '@' :: (d ++ '.' :: f)).length =
      l.length + 1 + d.length + 1 + f.length := by simp; omega
  refine ⟨u.length, List.mem_range.2 (by rw [htlen]; omega), ?_⟩
  rw [List.any_eq_true]
  refine ⟨u.length + (l ++ '@' :: (d ++ '.' :: f)).length,
    List.mem_range.2 (by rw [htlen]; omega), ?_⟩
  simp only [Bool.and_eq_true]
  refine ⟨⟨?_, ?_⟩, ?_⟩
  · rw [boundaryAt_append]
    obtain ⟨c0, l0, rfl⟩ := List.exists_cons_of_ne_nil hl
    rw [head?_cons_append]
    exact bne_iff_ne.2 hfront
  · obtain ⟨f0, cL, rfl⟩ := f.eq_nil_or_concat'.resolve_left
      (by intro hnil; rw [hnil] at hf; simp at hf)
    have hw : isWordChar cL = true :=
      isWordChar_of_alpha (List.all_eq_true.1 hfc cL (by simp))
    have key := boundaryAt_concat_nonword
      (u ++ (l ++ '@' :: (d ++ '.' :: f0))) cL v hw hback
    have hshape : (u ++ (l ++ '@' :: (d ++ '.' :: f0))) ++ cL :: v =
        u ++ ((l ++ '@' :: (d ++ '.' :: (f0 ++ [cL]))) ++ v) := by simp
    have hpos : (u ++ (l ++ '@' :: (d ++ '.' :: f0))).length + 1 =
        u.length + (l ++ '@' :: (d ++ '.' :: (f0 ++ [cL]))).length := by
      simp; omega
    rw [hshape, hpos] at key
    exact key
  · rw [subSlice_middle]
    exact emailCore_complete l d f hl hlc hd hdc hf hfc

/-- A bounded-with-boundaries match is in particular a contained match. -/
theorem containsCoreB_of_search (core : List Char → Bool) (t : List Char)
    (h : reSearchB core t = true) : containsCoreB core t = true := by
  unfold reSearchB at h
  unfold containsCoreB
  simp only [List.any_eq_true, Bool.and_eq_true] at h ⊢
  obtain ⟨i, hi, j, hj, -, hc⟩ := h
  exact ⟨i, hi, j, hj, hc⟩

/-- The claim's `local-part @ domain . final-label` shape. -/
def emailOfParts (l d f : List Char) : List Char :=
  l ++ '@' :: (d ++ '.' :: f)

/-- C6, amended: (i) every text containing a syntactically valid email
occurrence (local part over `[A-Za-z0-9._%+-]`, `@`, domain over
`[A-Za-z0-9.-]`, a final label of at least two letters) *placed at word
boundaries* — a word boundary holds at its start, and the character after
it, if any, is not a word character — has `has_pii` true with `"email"`
among the detected types; (ii) every text containing no substring matching
any of the four structured-format cores has `has_pii` false.  (Without the
word-boundary proviso, part (i) is false — see the counterexample.) -/
theorem c6_email_detection :
    (∀ u l d f v, l ≠ [] → l.all isLocalChar = true → d ≠ [] →
      d.all isDomainChar = true → 2 ≤ f.length → f.all isAlphaChar = true →
      wordOpt u.getLast? ≠ wordOpt l.head? → wordOpt v.head? = false →
      PIIRegexDetection.has_pii (u ++ (emailOfParts l d f ++ v)) = true ∧
      "email" ∈ PIIRegexDetection.get_detected_types
        (u ++ (emailOfParts l d f ++ v))) ∧
    (∀ t, containsCoreB emailCore t = false → containsCoreB ssnCore t = false →
      containsCoreB phoneCore t = false → containsCoreB cardCore t = false →
      PIIRegexDetection.has_pii t = false) := by
  constructor
  · intro u l d f v hl hlc hd hdc hf hfc hfront hback
    have hes : emailSearch (u ++ (emailOfParts l d f ++ v)) = true := by
      unfold emailOfParts
      exact emailSearch_complete u l d f v hl hlc hd hdc hf hfc hfront hback
    have hne : (u ++ (emailOfParts l d f ++ v)).isEmpty = false := by
      obtain ⟨c0, l0, rfl⟩ := List.exists_cons_of_ne_nil hl
      cases u <;> rfl
    constructor
    · unfold PIIRegexDetection.has_pii
      rw [if_neg (by rw [hne]; exact Bool.false_ne_true), hes]
      rfl
    · unfold PIIRegexDetection.get_detected_types
      rw [if_neg (by rw [hne]; exact Bool.false_ne_true), hes]
      simp
  · intro t h1 h2 h3 h4
    unfold PIIRegexDetection.has_pii
    by_cases he : t.isEmpty = true
    · rw [if_pos he]
    · rw [if_neg he]
      have e1 : emailSearch t = false := by
        cases hs : emailSearch t
        · rfl
        · rw [containsCoreB_of_search emailCore t hs] at h1
          exact absurd h1 (by decide)
      have e2 : ssnSearch t = false := by
        cases hs : ssnSearch t
        · rfl
        · rw [containsCoreB_of_search ssnCore t hs] at h2
          exact absurd h2 (by decide)
      have e3 : phoneSearch t = false := by
        cases hs : phoneSearch t
        · rfl
        · rw [containsCoreB_of_search phoneCore t hs] at h3
          exact absurd h3 (by decide)
      have e4 : cardSearch t = false := by
        cases hs : cardSearch t
        · rfl
        · rw [containsCoreB_of_search cardCore t hs] at h4
          exact absurd h4 (by decide)
      rw [e1, e2, e3, e4]
      rfl

/-- Witness for C6 at the concrete email `a@bb.cc` inside `"x a@bb.cc y"`
(both ends at word boundaries), and the format-free text `"hello world"`. -/
theorem c6_email_detection_witness :
    PIIRegexDetection.has_pii
      ("x ".data ++ (emailOfParts "a".data "bb".data "cc".data ++ " y".data)) = true ∧
    "email" ∈ PIIRegexDetection.get_detected_types
      ("x ".data ++ (emailOfParts "a".data "bb".data "cc".data ++ " y".data)) ∧
    PIIRegexDetection.has_pii "hello world".data = false := by
  have h1 := c6_email_detection.1 "x ".data "a".data "bb".data "cc".data " y".data
    (by decide) (by decide) (by decide) (by decide) (by decide) (by decide)
    (by decide) (by decide)
  have h2 := c6_email_detection.2 "hello world".data
    (by decide) (by decide) (by decide) (by decide)
  exact ⟨h1.1, h1.2, h2⟩

/-- C6, counterexample: `"a@bb.cc1"` contains the syntactically valid email
`a@bb.cc` (per the claim's own grammar), yet `has_pii` is false — the
trailing digit defeats the pattern's final `\b`, so the claim as stated
(no word-boundary proviso) fails. -/
theorem c6_trailing_digit_defeats_email :
    (∃ u l d f v, "a@bb.cc1".data = u ++ (emailOfParts l d f ++ v) ∧ l ≠ [] ∧
      l.all isLocalChar = true ∧ d ≠ [] ∧ d.all isDomainChar = true ∧
      2 ≤ f.length ∧ f.all isAlphaChar = true) ∧
    PIIRegexDetection.has_pii "a@bb.cc1".data = false := by
  constructor
  · exact ⟨[], "a".data, "bb".data, "cc".data, "1".data, by decide, by decide,
      by decide, by decide, by decide, by decide, by decide⟩
  · decide
